import Mathlib

/-!
# wg-quick-go: the reconcilers of `wg.go`

A shallow embedding of `Up`, `Down`, `Sync`, `SyncLink`, `SyncWireguardDevice`,
`SyncAddress`, `SyncRoutes`, `fillRouteDefaults` and `execSh`.

The kernel, the wireguard control plane and the shell are external: every call
the code makes to them goes through a `World`, which answers the call and moves
to a new state.  Each function of the embedding returns its Go return value, the
state of the world afterwards, and the list of calls it issued together with
the error each one returned.  Logging has no effect on control flow and is left out.
-/

namespace WgQuick

/-! ## Data model -/

/-- Go `error` values the code tells apart, plus any other error. -/
inductive Err where
  | ErrExist
  | LinkNotFound
  | EEXIST
  | other (code : Nat)
deriving DecidableEq

/-- A `net.IPNet`, kept as what the code and the kernel observe of it: the text
its `String()` method renders, its address family, the length of its mask and
the text of the network address it lies in. -/
structure IPNet where
  text : String
  v4 : Bool
  ones : Nat
  network : String
deriving DecidableEq

/-- Method `(*net.IPNet).String()` on a pointer that may be nil. -/
def ipNetString : Option IPNet → String
  | none => "<nil>"
  | some n => n.text

/-- The attributes of a `netlink.Link` handle. -/
structure Link where
  Name : String
  Index : Int
  MTU : Int
  LinkType : String
  Up : Bool
deriving DecidableEq

/-- A `netlink.Addr`; `Rest` stands for the attributes the code never sets
(flags, scope, peer, ...), zero in a zero value. -/
structure Addr where
  IPNet : Option IPNet
  Label : String
  Rest : Nat
deriving DecidableEq

/-- A `netlink.Route` (`Typ` is its field `Type`); `Rest` stands for the
attributes the code never sets (scope, gateway, source, flags, ...), zero in a
zero value. -/
structure Route where
  LinkIndex : Int
  Dst : Option IPNet
  Table : Int
  Protocol : Int
  Priority : Int
  Typ : Int
  Rest : Nat
deriving DecidableEq

/-- Method `netlink.Route.Equal`: attribute-wise equality. -/
def Route.Equal (r x : Route) : Bool := decide (r = x)

/-- A `wgtypes.PeerConfig`: the allowed-IP set, and the rest of the peer. -/
structure PeerConfig where
  AllowedIPs : List IPNet
  Rest : Nat
deriving DecidableEq

/-- The embedded `wgtypes.Config`: the peers, and the rest (keys, port, ...). -/
structure DeviceConfig where
  Peers : List PeerConfig
  Rest : Nat
deriving DecidableEq

/-- Modelled from the spec: the `Config` type declaration (its file is not
among the sources), with the fields `wg.go` reads.  `Device` is the embedded
`wgtypes.Config`, `DNS` holds each server as the text `%s` prints for it. -/
structure Config where
  Device : DeviceConfig
  Address : List IPNet
  AddressLabel : String
  DNS : List String
  MTU : Int
  Table : Int
  RouteProtocol : Int
  RouteMetric : Int
  PreUp : String
  PostUp : String
  PreDown : String
  PostDown : String

/-- Field promotion `cfg.Peers` from the embedded device configuration. -/
def Config.Peers (cfg : Config) : List PeerConfig := cfg.Device.Peers

def AF_INET : Int := 2
def RT_CLASS_MAIN : Int := 254
def RTPROT_BOOT : Int := 3
def RTN_UNICAST : Int := 1

/-! ## Calls to the outside world -/

/-- The calls `wg.go` makes to netlink, wgctrl and the shell. -/
inductive Call where
  | LinkByName (name : String)
  | LinkAdd (name : String) (mtu : Int) (linkType : String)
  | LinkSetUp (link : Link)
  | LinkDel (link : Link)
  | WgNew
  | ConfigureDevice (name : String) (cfg : DeviceConfig)
  | AddrList (link : Link) (family : Int)
  | AddrAdd (link : Link) (addr : Addr)
  | AddrDel (link : Link) (addr : Addr)
  | RouteList (link : Link) (family : Int)
  | RouteReplace (rt : Route)
  | RouteDel (rt : Route)
  | Sh (script : String) (stdin : Option String)
deriving DecidableEq

/-- One issued call and the error it returned (`none` for nil). -/
abbrev Event := Call × Option Err

/-- The outside world: how it answers the three queries and every other call,
and the state it is left in. -/
structure World (σ : Type) where
  LinkByName : String → σ → Except Err Link × σ
  AddrList : Link → Int → σ → Except Err (List Addr) × σ
  RouteList : Link → Int → σ → Except Err (List Route) × σ
  act : Call → σ → Option Err × σ

/-- Outcome of running a piece of the program: returned value, world state
afterwards, calls issued. -/
structure Out (σ α : Type) where
  ret : α
  st : σ
  log : List Event

/-- Go `if err := step; err != nil { return err }; rest`. -/
def Out.andThen {σ : Type} (a : Out σ (Option Err)) (f : σ → Out σ (Option Err)) :
    Out σ (Option Err) :=
  match a.ret with
  | some e => ⟨some e, a.st, a.log⟩
  | none => ⟨(f a.st).ret, (f a.st).st, a.log ++ (f a.st).log⟩

def errOf {α : Type} : Except Err α → Option Err
  | .ok _ => none
  | .error e => some e

/-- Issue a call that returns only an error. -/
def call {σ : Type} (w : World σ) (c : Call) (s : σ) : Out σ (Option Err) :=
  ⟨(w.act c s).1, (w.act c s).2, [(c, (w.act c s).1)]⟩

def linkByName {σ : Type} (w : World σ) (name : String) (s : σ) : Out σ (Except Err Link) :=
  ⟨(w.LinkByName name s).1, (w.LinkByName name s).2,
    [(Call.LinkByName name, errOf (w.LinkByName name s).1)]⟩

def addrList {σ : Type} (w : World σ) (link : Link) (family : Int) (s : σ) :
    Out σ (Except Err (List Addr)) :=
  ⟨(w.AddrList link family s).1, (w.AddrList link family s).2,
    [(Call.AddrList link family, errOf (w.AddrList link family s).1)]⟩

def routeList {σ : Type} (w : World σ) (link : Link) (family : Int) (s : σ) :
    Out σ (Except Err (List Route)) :=
  ⟨(w.RouteList link family s).1, (w.RouteList link family s).2,
    [(Call.RouteList link family, errOf (w.RouteList link family s).1)]⟩

/-! ## Go maps -/

/-- A Go `map[string]V`: keys are unique, entries kept in insertion order. -/
abbrev GoMap (V : Type) := List (String × V)

def GoMap.get {V : Type} : GoMap V → String → Option V
  | [], _ => none
  | (k, v) :: m, key => if k = key then some v else GoMap.get m key

def GoMap.set {V : Type} : GoMap V → String → V → GoMap V
  | [], key, val => [(key, val)]
  | (k, v) :: m, key, val =>
    if k = key then (k, val) :: m else (k, v) :: GoMap.set m key val

/-- The order in which `range` visits each of the two maps of `wg.go`; Go
leaves it unspecified, any rearrangement of the entries may occur. -/
structure RangeOrder where
  addr : GoMap Addr → GoMap Addr
  route : GoMap (List Route) → GoMap (List Route)

/-- Every `range` visits each entry once. -/
def RangeOrder.Fair (o : RangeOrder) : Prop :=
  (∀ m, (o.addr m).Perm m) ∧ (∀ m, (o.route m).Perm m)

def RangeOrder.insertion : RangeOrder := ⟨id, id⟩

/-! ## The program -/

/-- Keep the calls issued so far in front of a later outcome. -/
def Out.logged {σ α : Type} (pre : List Event) (a : Out σ α) : Out σ α :=
  ⟨a.ret, a.st, pre ++ a.log⟩

/-- Whether `old` starts the text `s`. -/
def startsWith : List Char → List Char → Bool
  | [], _ => true
  | _ :: _, [] => false
  | a :: old, b :: s => a == b && startsWith old s

/-- Scan for `strings.ReplaceAll`; `skip` counts the characters of a match
just replaced that are still to be dropped. -/
def replaceFrom (old new : List Char) : Nat → List Char → List Char
  | _, [] => []
  | skip + 1, _ :: cs => replaceFrom old new skip cs
  | 0, c :: cs =>
    if startsWith old (c :: cs) then new ++ replaceFrom old new (old.length - 1) cs
    else c :: replaceFrom old new 0 cs

/-- Go `strings.ReplaceAll(s, old, new)` for a non-empty `old`: the
non-overlapping occurrences of `old`, left to right, become `new`. -/
def ReplaceAll (s old new : String) : String :=
  ⟨replaceFrom old.data new.data 0 s.data⟩

/-- Function `execSh`: run `sh -ce` on the command with `%i` replaced by the
interface name, the `stdin` strings joined as its input when there are any. -/
def execSh {σ : Type} (w : World σ) (command iface : String) (stdin : List String) (s : σ) :
    Out σ (Option Err) :=
  call w (Call.Sh (ReplaceAll command "%i" iface)
    (if stdin.length > 0 then some (String.join stdin) else none)) s

/-- Function `SyncLink`. -/
def SyncLink {σ : Type} (w : World σ) (cfg : Config) (iface : String) (s : σ) :
    Out σ (Except Err Link) :=
  let setUp (pre : List Event) (link : Link) (s : σ) : Out σ (Except Err Link) :=
    let u := call w (Call.LinkSetUp link) s
    match u.ret with
    | some e => ⟨.error e, u.st, pre ++ u.log⟩
    | none => ⟨.ok link, u.st, pre ++ u.log⟩
  let r := linkByName w iface s
  match r.ret with
  | .error e =>
    if e ≠ Err.LinkNotFound then ⟨.error e, r.st, r.log⟩
    else
      let a := call w (Call.LinkAdd iface cfg.MTU "wireguard") r.st
      match a.ret with
      | some e => ⟨.error e, a.st, r.log ++ a.log⟩
      | none =>
        let r2 := linkByName w iface a.st
        match r2.ret with
        | .error e => ⟨.error e, r2.st, r.log ++ a.log ++ r2.log⟩
        | .ok link => setUp (r.log ++ a.log ++ r2.log) link r2.st
  | .ok link => setUp r.log link r.st

/-- Function `SyncWireguardDevice`. -/
def SyncWireguardDevice {σ : Type} (w : World σ) (cfg : Config) (link : Link) (s : σ) :
    Out σ (Option Err) :=
  (call w Call.WgNew s).andThen
    (call w (Call.ConfigureDevice link.Name cfg.Device))

/-- First loop of `SyncAddress`: index the listed addresses by network string. -/
def presentAddresses : List Addr → GoMap Addr → GoMap Addr
  | [], m => m
  | addr :: rest, m => presentAddresses rest (m.set (ipNetString addr.IPNet) addr)

/-- Second loop of `SyncAddress`: mark every configured address in the map, add
the ones that were not in it; `EEXIST` from the add is let through. -/
def SyncAddressAdd {σ : Type} (w : World σ) (cfg : Config) (link : Link) :
    List IPNet → GoMap Addr → σ → Out σ (Except Err (GoMap Addr))
  | [], m, s => ⟨.ok m, s, []⟩
  | addr :: rest, m, s =>
    let present := (m.get addr.text).isSome
    let m2 := m.set addr.text ⟨none, "", 0⟩
    if present then SyncAddressAdd w cfg link rest m2 s
    else
      let a := call w (Call.AddrAdd link ⟨some addr, cfg.AddressLabel, 0⟩) s
      match a.ret with
      | some e =>
        if e ≠ Err.EEXIST then ⟨.error e, a.st, a.log⟩
        else (SyncAddressAdd w cfg link rest m2 a.st).logged a.log
      | none => (SyncAddressAdd w cfg link rest m2 a.st).logged a.log

/-- Third loop of `SyncAddress`: delete every entry that was not marked. -/
def SyncAddressDel {σ : Type} (w : World σ) (link : Link) :
    List (String × Addr) → σ → Out σ (Option Err)
  | [], s => ⟨none, s, []⟩
  | (_, addr) :: rest, s =>
    if addr.IPNet = none then SyncAddressDel w link rest s
    else (call w (Call.AddrDel link addr) s).andThen (SyncAddressDel w link rest)

/-- Function `SyncAddress`. -/
def SyncAddress {σ : Type} (w : World σ) (o : RangeOrder) (cfg : Config) (link : Link)
    (s : σ) : Out σ (Option Err) :=
  let l := addrList w link AF_INET s
  match l.ret with
  | .error e => ⟨some e, l.st, l.log⟩
  | .ok addrs =>
    let a := SyncAddressAdd w cfg link cfg.Address (presentAddresses addrs []) l.st
    match a.ret with
    | .error e => ⟨some e, a.st, l.log ++ a.log⟩
    | .ok m => (SyncAddressDel w link (o.addr m) a.st).logged (l.log ++ a.log)

/-- Function `fillRouteDefaults`. -/
def fillRouteDefaults (rt : Route) : Route :=
  let rt := if rt.Table = 0 then { rt with Table := RT_CLASS_MAIN } else rt
  let rt := if rt.Protocol = 0 then { rt with Protocol := RTPROT_BOOT } else rt
  if rt.Typ = 0 then { rt with Typ := RTN_UNICAST } else rt

/-- First loop of `SyncRoutes`: the wanted routes, grouped by destination string. -/
def wantedRoutes (cfg : Config) (link : Link) :
    List IPNet → GoMap (List Route) → GoMap (List Route)
  | [], m => m
  | rt :: rest, m =>
    let nrt := fillRouteDefaults
      { LinkIndex := link.Index, Dst := some rt, Table := cfg.Table,
        Protocol := cfg.RouteProtocol, Priority := cfg.RouteMetric, Typ := 0, Rest := 0 }
    wantedRoutes cfg link rest
      (m.set rt.text (((m.get rt.text).getD []) ++ [nrt]))

/-- Inner loop of the upsert: replace every route of one destination. -/
def SyncRoutesReplace {σ : Type} (w : World σ) : List Route → σ → Out σ (Option Err)
  | [], s => ⟨none, s, []⟩
  | rt :: rest, s => (call w (Call.RouteReplace rt) s).andThen (SyncRoutesReplace w rest)

/-- Outer loop of the upsert, over the entries of the wanted map. -/
def SyncRoutesUpsert {σ : Type} (w : World σ) :
    List (String × List Route) → σ → Out σ (Option Err)
  | [], s => ⟨none, s, []⟩
  | (_, rtLst) :: rest, s => (SyncRoutesReplace w rtLst s).andThen (SyncRoutesUpsert w rest)

/-- Closure `checkWanted` of `SyncRoutes`. -/
def checkWanted (wanted : GoMap (List Route)) (rt : Route) : Bool :=
  ((wanted.get (ipNetString rt.Dst)).getD []).any (fun candidateRt => rt.Equal candidateRt)

/-- Last loop of `SyncRoutes`: the deletion scan over the listed routes. -/
def SyncRoutesScan {σ : Type} (w : World σ) (cfg : Config) (wanted : GoMap (List Route)) :
    List Route → σ → Out σ (Option Err)
  | [], s => ⟨none, s, []⟩
  | rt :: rest, s =>
    if ¬ (rt.Table = cfg.Table ∨ (cfg.Table = 0 ∧ rt.Table = RT_CLASS_MAIN)) then
      SyncRoutesScan w cfg wanted rest s
    else if ¬ (rt.Protocol = cfg.RouteProtocol) then
      SyncRoutesScan w cfg wanted rest s
    else if checkWanted wanted rt then
      SyncRoutesScan w cfg wanted rest s
    else
      (call w (Call.RouteDel rt) s).andThen (SyncRoutesScan w cfg wanted rest)

/-- Function `SyncRoutes`. -/
def SyncRoutes {σ : Type} (w : World σ) (o : RangeOrder) (cfg : Config) (link : Link)
    (managedRoutes : List IPNet) (s : σ) : Out σ (Option Err) :=
  let l := routeList w link AF_INET s
  match l.ret with
  | .error e => ⟨some e, l.st, l.log⟩
  | .ok presentRoutes =>
    let wanted := wantedRoutes cfg link managedRoutes []
    ((SyncRoutesUpsert w (o.route wanted) l.st).andThen
      (SyncRoutesScan w cfg wanted presentRoutes)).logged l.log

/-- The allowed IPs of all peers, in order: the `managedRoutes` of `Sync`. -/
def managedRoutes (cfg : Config) : List IPNet :=
  cfg.Peers.foldl (fun acc peer => acc ++ peer.AllowedIPs) []

/-- Function `Sync`. -/
def Sync {σ : Type} (w : World σ) (o : RangeOrder) (cfg : Config) (iface : String) (s : σ) :
    Out σ (Option Err) :=
  let l := SyncLink w cfg iface s
  match l.ret with
  | .error e => ⟨some e, l.st, l.log⟩
  | .ok link =>
    ((SyncWireguardDevice w cfg link l.st).andThen fun s =>
      (SyncAddress w o cfg link s).andThen
        (SyncRoutes w o cfg link (managedRoutes cfg))).logged l.log

/-- The DNS loop of `Up`: one resolver registration per server. -/
def UpDNS {σ : Type} (w : World σ) (iface : String) : List String → σ → Out σ (Option Err)
  | [], s => ⟨none, s, []⟩
  | dns :: rest, s =>
    (execSh w "resolvconf -a tun.%i -m 0 -x" iface ["nameserver " ++ dns ++ "\n"] s).andThen
      (UpDNS w iface rest)

/-- A hook of `Up` or `Down`: run only when the command is not empty. -/
def hook {σ : Type} (w : World σ) (command iface : String) (s : σ) : Out σ (Option Err) :=
  if command ≠ "" then execSh w command iface [] s else ⟨none, s, []⟩

/-- Function `Up`. -/
def Up {σ : Type} (w : World σ) (o : RangeOrder) (cfg : Config) (iface : String) (s : σ) :
    Out σ (Option Err) :=
  let r := linkByName w iface s
  match r.ret with
  | .ok _ => ⟨some Err.ErrExist, r.st, r.log⟩
  | .error e =>
    if e ≠ Err.LinkNotFound then ⟨some e, r.st, r.log⟩
    else
      ((UpDNS w iface cfg.DNS r.st).andThen fun s =>
        (hook w cfg.PreUp iface s).andThen fun s =>
          (Sync w o cfg iface s).andThen
            (hook w cfg.PostUp iface)).logged r.log

/-- Function `Down`. -/
def Down {σ : Type} (w : World σ) (cfg : Config) (iface : String) (s : σ) :
    Out σ (Option Err) :=
  let r := linkByName w iface s
  match r.ret with
  | .error e => ⟨some e, r.st, r.log⟩
  | .ok link =>
    ((if cfg.DNS.length > 1 then execSh w "resolvconf -d tun.%s" iface [] r.st
      else ⟨none, r.st, []⟩).andThen fun s =>
      (hook w cfg.PreDown iface s).andThen fun s =>
        (call w (Call.LinkDel link) s).andThen
          (hook w cfg.PostDown iface)).logged r.log

/-! ## Specification-side definitions -/

/-- The route the route reconciler is to upsert for destination `d`: the
link's index, `d`, the configured table or main (254), the configured protocol
tag or the boot tag (3), the configured metric, unicast type (1). -/
def stampedRoute (cfg : Config) (link : Link) (d : IPNet) : Route :=
  { LinkIndex := link.Index, Dst := some d,
    Table := if cfg.Table ≠ 0 then cfg.Table else 254,
    Protocol := if cfg.RouteProtocol ≠ 0 then cfg.RouteProtocol else 3,
    Priority := cfg.RouteMetric, Typ := 1, Rest := 0 }

/-- Calls of the link reconciler. -/
def Call.isLink : Call → Bool
  | .LinkByName _ | .LinkAdd _ _ _ | .LinkSetUp _ => true
  | _ => false

/-- Calls of the device reconciler. -/
def Call.isDevice : Call → Bool
  | .WgNew | .ConfigureDevice _ _ => true
  | _ => false

/-- Calls of the address reconciler. -/
def Call.isAddr : Call → Bool
  | .AddrList _ _ | .AddrAdd _ _ | .AddrDel _ _ => true
  | _ => false

/-- Calls of the route reconciler. -/
def Call.isRoute : Call → Bool
  | .RouteList _ _ | .RouteReplace _ | .RouteDel _ => true
  | _ => false

/-- Shell commands. -/
def Call.isSh : Call → Bool
  | .Sh _ _ => true
  | _ => false

/-! ## A model of the kernel

The netlink and wgctrl calls are not part of the repository.  The theorems about
the program hold for every `World`; the closed runs (samples, witnesses,
counterexamples) are evaluated against this model of netlink over a Linux kernel.
It covers: the netlink rule that an address label begins with the interface name;
the label the kernel gives an IPv4 address sent without one; primary and
secondary IPv4 addresses, a deleted primary taking its secondaries with it
unless the kernel promotes them (`promote_secondaries`, off by default); the
route attributes netlink leaves out of a request (table, protocol, metric,
type, sent only when positive, protocol and type as 8 bits) and the kernel's
defaults for them; replacement of the route in the same slot; a route listing
restricted to the main table, in which a default route has no destination; the
refusal by netlink of a route request without destination.  Routes the kernel
derives from bound addresses are left out.  Shell commands leave the state
alone, and only the command `false` exits with an error. -/

/-- An address bound to the link with index `Index`; `Secondary` is the
kernel's flag for an IPv4 address added into a subnet already present. -/
structure Bound where
  Index : Int
  Net : IPNet
  Label : String
  Secondary : Bool
  Rest : Nat
deriving DecidableEq

/-- State of the kernel and of the wireguard control plane. -/
structure Kernel where
  links : List Link
  devices : List (String × DeviceConfig)
  addrs : List Bound
  routes : List Route
  promoteSecondaries : Bool
deriving DecidableEq

/-- Address family number of a network. -/
def familyOf (n : IPNet) : Int := if n.v4 then 2 else 10

/-- Family under which a route is listed; a route without destination is
counted as IPv4. -/
def routeFamily (rt : Route) : Int :=
  match rt.Dst with
  | some n => familyOf n
  | none => 2

def Bound.toAddr (b : Bound) : Addr := ⟨some b.Net, b.Label, b.Rest⟩

/-- The addresses `AddrList` reports for a link and family (0 for all). -/
def Kernel.addrList (k : Kernel) (link : Link) (family : Int) : List Addr :=
  (k.addrs.filter (fun b => decide (b.Index = link.Index) &&
    (decide (family = 0) || decide (family = familyOf b.Net)))).map Bound.toAddr

/-- A route as a listing shows it: a default route comes without destination. -/
def listedRoute (r : Route) : Route :=
  match r.Dst with
  | some n => if n.ones = 0 then { r with Dst := none } else r
  | none => r

/-- The routes `RouteList` reports for a link and family (0 for all): those of
the main table. -/
def Kernel.routeList (k : Kernel) (link : Link) (family : Int) : List Route :=
  (k.routes.filter (fun r => decide (r.LinkIndex = link.Index) && decide (r.Table = 254) &&
    (decide (family = 0) || decide (family = routeFamily r)))).map listedRoute

/-- Network strings of the addresses of every family bound to the link. -/
def Kernel.boundKeys (k : Kernel) (link : Link) : List String :=
  (k.addrList link 0).map (fun a => ipNetString a.IPNet)

/-- An index no link of the kernel uses. -/
def Kernel.freshIndex (k : Kernel) : Int :=
  (k.links.foldl (fun acc l => max acc l.Index) 0) + 1

/-- The link with the given index. -/
def Kernel.linkAt (k : Kernel) (idx : Int) : Option Link :=
  k.links.find? (fun l => decide (l.Index = idx))

/-- The netlink rule on address labels: empty, or beginning with the name of
the interface. -/
def labelOk (link : Link) (addr : Addr) : Bool :=
  decide (addr.Label = "") || startsWith link.Name.data addr.Label.data

/-- Whether two IPv4 networks lie in the same subnet with the same mask. -/
def sameSubnet (a b : IPNet) : Bool :=
  a.v4 && b.v4 && decide (a.ones = b.ones) && decide (a.network = b.network)

/-- Promotion of the first secondary of the subnet of a deleted primary. -/
def promoteFirst (b : Bound) : List Bound → List Bound
  | [] => []
  | c :: cs =>
    if decide (c.Index = b.Index) && c.Secondary && sameSubnet c.Net b.Net then
      { c with Secondary := false } :: cs
    else c :: promoteFirst b cs

/-- The bound addresses once `b` is deleted: a secondary or an IPv6 address
goes alone; a primary takes the secondaries of its subnet with it, unless the
kernel promotes the first of them. -/
def Kernel.delAddr (k : Kernel) (b : Bound) : List Bound :=
  if b.Secondary || !b.Net.v4 then k.addrs.erase b
  else if k.promoteSecondaries then promoteFirst b (k.addrs.erase b)
  else (k.addrs.erase b).filter
    (fun c => !(decide (c.Index = b.Index) && c.Secondary && sameSubnet c.Net b.Net))

/-- The route the kernel stores for a request: netlink sends table, protocol,
metric and type only when positive, protocol and type as 8 bits; the kernel
fills in main table, boot protocol, metric 0 and unicast. -/
def sentRoute (rt : Route) : Route :=
  { rt with
    Table := if rt.Table > 0 then rt.Table else 254
    Protocol := if rt.Protocol > 0 then rt.Protocol % 256 else 3
    Priority := if rt.Priority > 0 then rt.Priority else 0
    Typ := if rt.Typ > 0 then rt.Typ % 256 else 1 }

/-- Whether two routes occupy the same slot of a routing table. -/
def sameSlot (a b : Route) : Bool :=
  decide (a.Dst = b.Dst) && decide (a.Table = b.Table) && decide (a.Priority = b.Priority)

/-- Replace the route in the slot of `new`, or append `new`. -/
def replaceRoute (new : Route) : List Route → List Route
  | [] => [new]
  | r :: rs => if sameSlot r new then new :: rs else r :: replaceRoute new rs

/-- Whether the stored route `r` is the one a delete request for `rt` names:
same destination, link and table, and the same metric, protocol and type where
the request carries them. -/
def matchesDel (rt r : Route) : Bool :=
  decide (r.Dst = rt.Dst) && decide (r.LinkIndex = rt.LinkIndex) &&
    decide (r.Table = (sentRoute rt).Table) &&
    (decide (rt.Priority ≤ 0) || decide (r.Priority = rt.Priority)) &&
    (decide (rt.Protocol ≤ 0) || decide (r.Protocol = rt.Protocol % 256)) &&
    (decide (rt.Typ ≤ 0) || decide (r.Typ = rt.Typ % 256))

/-- How netlink and the kernel answer a call that returns only an error. -/
def Kernel.act (c : Call) (k : Kernel) : Option Err × Kernel :=
  match c with
  | .LinkAdd name mtu linkType =>
    if k.links.any (fun l => decide (l.Name = name)) then (some Err.EEXIST, k)
    else (none, { k with links := (k.links ++
      [⟨name, k.freshIndex, if mtu > 0 then mtu else 1420, linkType, false⟩]) })
  | .LinkSetUp link =>
    if k.links.any (fun l => decide (l.Index = link.Index)) then
      (none, { k with links := (k.links.map
        (fun l => if l.Index = link.Index then { l with Up := true } else l)) })
    else (some (Err.other 19), k)
  | .LinkDel link =>
    if k.links.any (fun l => decide (l.Index = link.Index)) then
      (none, { k with
        links := k.links.filter (fun l => decide (l.Index ≠ link.Index)),
        addrs := k.addrs.filter (fun b => decide (b.Index ≠ link.Index)),
        routes := k.routes.filter (fun r => decide (r.LinkIndex ≠ link.Index)) })
    else (some (Err.other 19), k)
  | .WgNew => (none, k)
  | .ConfigureDevice name cfg =>
    if k.links.any (fun l => decide (l.Name = name) && decide (l.LinkType = "wireguard")) then
      (none, { k with devices := GoMap.set k.devices name cfg })
    else (some (Err.other 2), k)
  | .AddrAdd link addr =>
    if !labelOk link addr then (some (Err.other 22), k)
    else
      match addr.IPNet, k.linkAt link.Index with
      | none, _ => (some (Err.other 22), k)
      | some _, none => (some (Err.other 19), k)
      | some n, some dev =>
        if k.addrs.any (fun b => decide (b.Index = link.Index) && decide (b.Net.text = n.text))
        then (some Err.EEXIST, k)
        else (none, { k with addrs := (k.addrs ++
          [⟨link.Index, n,
            if n.v4 then (if addr.Label = "" then dev.Name else addr.Label) else "",
            n.v4 && k.addrs.any (fun b => decide (b.Index = link.Index) && sameSubnet b.Net n),
            addr.Rest⟩]) })
  | .AddrDel link addr =>
    if !labelOk link addr then (some (Err.other 22), k)
    else
      match addr.IPNet with
      | none => (some (Err.other 22), k)
      | some n =>
        match k.addrs.find? (fun b => decide (b.Index = link.Index) &&
            decide (b.Net.text = n.text) &&
            (decide (addr.Label = "") || decide (b.Label = addr.Label))) with
        | none => (some (Err.other 99), k)
        | some b => (none, { k with addrs := k.delAddr b })
  | .RouteReplace rt =>
    match rt.Dst, k.linkAt rt.LinkIndex with
    | none, _ => (some (Err.other 22), k)
    | some _, none => (some (Err.other 19), k)
    | some _, some dev =>
      if dev.Up then (none, { k with routes := replaceRoute (sentRoute rt) k.routes })
      else (some (Err.other 100), k)
  | .RouteDel rt =>
    match rt.Dst with
    | none => (some (Err.other 22), k)
    | some _ =>
      match k.routes.find? (matchesDel rt) with
      | none => (some (Err.other 3), k)
      | some r => (none, { k with routes := k.routes.erase r })
  | .Sh script _ => if script = "false" then (some (Err.other 1), k) else (none, k)
  | .LinkByName _ => (none, k)
  | .AddrList _ _ => (none, k)
  | .RouteList _ _ => (none, k)

/-- The kernel as a `World`. -/
def kernelWorld : World Kernel where
  LinkByName name k :=
    match k.links.find? (fun l => decide (l.Name = name)) with
    | some l => (.ok l, k)
    | none => (.error Err.LinkNotFound, k)
  AddrList link family k := (.ok (k.addrList link family), k)
  RouteList link family k := (.ok (k.routeList link family), k)
  act := Kernel.act

/-- Whether a call changes, or tries to change, kernel or device state. -/
def Call.isMutation : Call → Bool
  | .LinkAdd _ _ _ | .LinkSetUp _ | .LinkDel _ | .ConfigureDevice _ _
  | .AddrAdd _ _ | .AddrDel _ _ | .RouteReplace _ | .RouteDel _ => true
  | _ => false

/-! ## Sample inputs -/

def wg0 : Link := ⟨"wg0", 7, 1420, "wireguard", true⟩

def netA : IPNet := ⟨"10.0.0.1/24", true, 24, "10.0.0.0"⟩
def netB : IPNet := ⟨"10.0.0.2/24", true, 24, "10.0.0.0"⟩
def netC : IPNet := ⟨"10.0.0.3/24", true, 24, "10.0.0.0"⟩
def net6 : IPNet := ⟨"fd00::1/64", false, 64, "fd00::"⟩
def net10 : IPNet := ⟨"10.0.0.0/24", true, 24, "10.0.0.0"⟩
def net192 : IPNet := ⟨"192.168.9.0/24", true, 24, "192.168.9.0"⟩

/-- A configuration with addresses B and C, one peer allowing 10.0.0.0/24,
two DNS servers, and table, protocol tag and metric left unset. -/
def sampleCfg : Config :=
  { Device := ⟨[⟨[net10], 0⟩], 0⟩, Address := [netB, netC], AddressLabel := "wg0",
    DNS := ["1.1.1.1", "9.9.9.9"], MTU := 1420, Table := 0, RouteProtocol := 0,
    RouteMetric := 0, PreUp := "", PostUp := "", PreDown := "", PostDown := "" }

/-- A kernel where `wg0` exists with address A bound as primary and B as its
secondary, and two routes: one to 10.0.0.0/24 tagged by another daemon
(protocol 186), and a boot-tagged main-table route to 192.168.9.0/24. -/
def sampleKernel : Kernel :=
  { links := [wg0], devices := [],
    addrs := [⟨7, netA, "wg0", false, 0⟩, ⟨7, netB, "wg0", true, 0⟩],
    routes := [⟨7, some net10, 254, 186, 0, 1, 0⟩, ⟨7, some net192, 254, 3, 0, 1, 0⟩],
    promoteSecondaries := false }

/-- A kernel without any link. -/
def emptyKernel : Kernel := ⟨[], [], [], [], false⟩

/-- The sample configuration with a PreUp hook that fails. -/
def failingPreUp : Config := { sampleCfg with PreUp := "false" }

/-- The sample configuration with a PostUp hook that fails. -/
def failingPostUp : Config := { sampleCfg with PostUp := "false" }

/-- A configuration whose first address is an IPv6 network, followed by B. -/
def dualCfg : Config := { sampleCfg with Address := [net6, netB] }

/-- The sample kernel with the IPv6 address already bound to `wg0`. -/
def dualKernel : Kernel := { sampleKernel with addrs := ⟨7, net6, "", false, 0⟩ :: sampleKernel.addrs }

/-- A kernel where `wg0` carries the IPv6 address and B, the addresses of
`dualCfg`, and the two sample routes. -/
def tidyKernel : Kernel :=
  { sampleKernel with addrs := [⟨7, net6, "", false, 0⟩, ⟨7, netB, "wg0", false, 0⟩] }

/-- The sample configuration with B as only address, an own protocol tag (186)
and a negative route metric. -/
def taggedCfg : Config :=
  { sampleCfg with Address := [netB], RouteProtocol := 186, RouteMetric := -5 }

/-- A kernel where `wg0` is up with B bound and no route. -/
def bareKernel : Kernel :=
  { sampleKernel with addrs := [⟨7, netB, "wg0", false, 0⟩], routes := [] }

/-! ## Specification of the address reconciler -/

/-- The failures on which the address reconciler is to give up: a failed
listing, a failed add other than "already exists", a failed delete. -/
def fatal : Event → Bool
  | (.AddrList _ _, some _) => true
  | (.AddrAdd _ _, some e) => decide (e ≠ Err.EEXIST)
  | (.AddrDel _ _, some _) => true
  | _ => false

/-- The adds to issue: one for each configured address whose network string is
neither listed nor configured earlier, with the configured label. -/
def plannedAdds (cfg : Config) (link : Link) : List IPNet → List String → List Call
  | [], _ => []
  | a :: rest, seen =>
    if a.text ∈ seen then plannedAdds cfg link rest seen
    else Call.AddrAdd link ⟨some a, cfg.AddressLabel, 0⟩ :: plannedAdds cfg link rest (a.text :: seen)

/-- The map of listed addresses once every configured address is marked. -/
def marked (ds : List IPNet) (m : GoMap Addr) : GoMap Addr :=
  ds.foldl (fun m d => m.set d.text ⟨none, "", 0⟩) m

/-- The deletes to issue: one for each entry left unmarked, in range order. -/
def plannedDels (link : Link) (entries : List (String × Addr)) : List Call :=
  (entries.filter (fun p => decide (p.2.IPNet ≠ none))).map (fun p => Call.AddrDel link p.2)

/-- All calls of a run of the address reconciler that meets no fatal failure,
given the addresses the listing reports. -/
def plannedCalls (o : RangeOrder) (cfg : Config) (link : Link) (addrs : List Addr) : List Call :=
  Call.AddrList link AF_INET ::
    (plannedAdds cfg link cfg.Address (addrs.map (fun a => ipNetString a.IPNet)) ++
      plannedDels link (o.addr (marked cfg.Address (presentAddresses addrs []))))

/-- A run that follows a plan: without error it issued exactly the planned
calls, none failing fatally; with error `e` it stopped at a planned call that
failed fatally with `e`, the calls before it being planned and not fatal. -/
def Follows (ret : Option Err) (log : List Event) (planned : List Call) : Prop :=
  (ret = none → log.map Prod.fst = planned ∧ ∀ ev ∈ log, fatal ev = false) ∧
  (∀ e, ret = some e → ∃ pre c, log = pre ++ [(c, some e)] ∧ fatal (c, some e) = true ∧
    (∀ ev ∈ pre, fatal ev = false) ∧ (pre.map Prod.fst ++ [c]) <+: planned)

/-- The upserts of a run of the route reconciler: every route of every entry of
the wanted map, in range order. -/
def plannedReplaces : List (String × List Route) → List Call
  | [] => []
  | (_, rtLst) :: rest => rtLst.map Call.RouteReplace ++ plannedReplaces rest

/-- A listed route the deletion scan deletes: in the configured table, with
the configured protocol tag, and not wanted. -/
def stale (cfg : Config) (wanted : GoMap (List Route)) (rt : Route) : Prop :=
  (rt.Table = cfg.Table ∨ (cfg.Table = 0 ∧ rt.Table = RT_CLASS_MAIN)) ∧
    rt.Protocol = cfg.RouteProtocol ∧ checkWanted wanted rt = false

instance (cfg : Config) (wanted : GoMap (List Route)) (rt : Route) :
    Decidable (stale cfg wanted rt) := by
  unfold stale; infer_instance

/-! ## Sequencing lemmas -/

section Basics

variable {σ : Type}

theorem andThen_none {a : Out σ (Option Err)} {f : σ → Out σ (Option Err)}
    (h : a.ret = none) :
    a.andThen f = ⟨(f a.st).ret, (f a.st).st, a.log ++ (f a.st).log⟩ := by
  unfold Out.andThen; rw [h]

theorem andThen_some {a : Out σ (Option Err)} {f : σ → Out σ (Option Err)} {e : Err}
    (h : a.ret = some e) : a.andThen f = ⟨some e, a.st, a.log⟩ := by
  unfold Out.andThen; rw [h]

theorem andThen_ret_none {a : Out σ (Option Err)} {f : σ → Out σ (Option Err)} :
    (a.andThen f).ret = none ↔ a.ret = none ∧ (f a.st).ret = none := by
  cases h : a.ret with
  | none => simp [andThen_none h]
  | some e => simp [andThen_some h]

theorem andThen_log_mem {a : Out σ (Option Err)} {f : σ → Out σ (Option Err)} {ev : Event}
    (h : ev ∈ (a.andThen f).log) : ev ∈ a.log ∨ ev ∈ (f a.st).log := by
  cases h1 : a.ret with
  | none => rw [andThen_none h1] at h; simpa using h
  | some e => rw [andThen_some h1] at h; exact Or.inl h

theorem andThen_log_all {a : Out σ (Option Err)} {f : σ → Out σ (Option Err)}
    {P : Event → Prop} (ha : ∀ ev ∈ a.log, P ev) (hf : ∀ ev ∈ (f a.st).log, P ev) :
    ∀ ev ∈ (a.andThen f).log, P ev := by
  intro ev h
  rcases andThen_log_mem h with h | h
  · exact ha ev h
  · exact hf ev h

@[simp] theorem logged_ret {α : Type} (pre : List Event) (a : Out σ α) :
    (a.logged pre).ret = a.ret := rfl

@[simp] theorem logged_st {α : Type} (pre : List Event) (a : Out σ α) :
    (a.logged pre).st = a.st := rfl

@[simp] theorem logged_log {α : Type} (pre : List Event) (a : Out σ α) :
    (a.logged pre).log = pre ++ a.log := rfl

@[simp] theorem call_log (w : World σ) (c : Call) (s : σ) :
    (call w c s).log = [(c, (call w c s).ret)] := rfl

theorem call_log_all (w : World σ) (c : Call) (s : σ) {P : Event → Prop}
    (h : ∀ e, P (c, e)) : ∀ ev ∈ (call w c s).log, P ev := by
  intro ev hev
  simp only [call_log, List.mem_singleton] at hev
  subst hev; exact h _

end Basics

/-! ## Go map lemmas -/

section Maps

variable {V : Type}

theorem GoMap.get_set (m : GoMap V) (k k2 : String) (v : V) :
    (m.set k v).get k2 = if k = k2 then some v else m.get k2 := by
  induction m with
  | nil => simp [GoMap.set, GoMap.get]
  | cons p m ih =>
    obtain ⟨k1, v1⟩ := p
    by_cases h1 : k1 = k
    · subst h1
      by_cases h2 : k1 = k2 <;> simp [GoMap.set, GoMap.get, h2]
    · by_cases h2 : k1 = k2
      · subst h2
        simp [GoMap.set, GoMap.get, h1, Ne.symm h1]
      · simp [GoMap.set, GoMap.get, h1, h2, ih]

theorem GoMap.mem_of_get {m : GoMap V} {k : String} {v : V} (h : m.get k = some v) :
    (k, v) ∈ m := by
  induction m with
  | nil => simp [GoMap.get] at h
  | cons p m ih =>
    obtain ⟨k1, v1⟩ := p
    by_cases h1 : k1 = k
    · subst h1
      simp [GoMap.get] at h
      subst h; exact List.mem_cons_self _ _
    · simp [GoMap.get, h1] at h
      exact List.mem_cons_of_mem _ (ih h)

theorem GoMap.mem_set {m : GoMap V} {k k2 : String} {v v2 : V}
    (h : (k2, v2) ∈ m.set k v) : (k2 = k ∧ v2 = v) ∨ (k2, v2) ∈ m := by
  induction m with
  | nil => simp [GoMap.set] at h; exact Or.inl h
  | cons p m ih =>
    obtain ⟨k1, v1⟩ := p
    by_cases h1 : k1 = k
    · subst h1
      simp [GoMap.set] at h
      rcases h with h | h
      · exact Or.inl h
      · exact Or.inr (List.mem_cons_of_mem _ h)
    · simp [GoMap.set, h1] at h
      rcases h with h | h
      · right; simp [h.1, h.2]
      · rcases ih h with h | h
        · exact Or.inl h
        · exact Or.inr (List.mem_cons_of_mem _ h)

end Maps

/-! ## The route reconciler -/

section Routes

variable {σ : Type}

theorem fillRouteDefaults_stamped (cfg : Config) (link : Link) (d : IPNet) :
    fillRouteDefaults
      { LinkIndex := link.Index, Dst := some d, Table := cfg.Table,
        Protocol := cfg.RouteProtocol, Priority := cfg.RouteMetric, Typ := 0, Rest := 0 }
      = stampedRoute cfg link d := by
  unfold fillRouteDefaults stampedRoute RT_CLASS_MAIN RTPROT_BOOT RTN_UNICAST
  by_cases h1 : cfg.Table = 0 <;> by_cases h2 : cfg.RouteProtocol = 0 <;> simp [h1, h2]

theorem wantedRoutes_sound (cfg : Config) (link : Link) (ds : List IPNet) :
    ∀ (m : GoMap (List Route)) (k : String) (l : List Route) (r : Route),
      (k, l) ∈ wantedRoutes cfg link ds m → r ∈ l →
      (∃ d ∈ ds, r = stampedRoute cfg link d) ∨ (∃ l0, (k, l0) ∈ m ∧ r ∈ l0) := by
  induction ds with
  | nil => intro m k l r h hr; exact Or.inr ⟨l, h, hr⟩
  | cons d ds ih =>
    intro m k l r h hr
    simp only [wantedRoutes, fillRouteDefaults_stamped] at h
    rcases ih _ k l r h hr with ⟨d2, hd2, rfl⟩ | ⟨l0, hl0, hr0⟩
    · exact Or.inl ⟨d2, List.mem_cons_of_mem _ hd2, rfl⟩
    · rcases GoMap.mem_set hl0 with ⟨rfl, rfl⟩ | hm
      · rcases List.mem_append.1 hr0 with hr1 | hr1
        · cases hg : GoMap.get m d.text with
          | none => simp [hg] at hr1
          | some l1 =>
            simp [hg] at hr1
            exact Or.inr ⟨l1, GoMap.mem_of_get hg, hr1⟩
        · simp at hr1
          exact Or.inl ⟨d, List.mem_cons_self _ _, hr1⟩
      · exact Or.inr ⟨l0, hm, hr0⟩

theorem wantedRoutes_keep (cfg : Config) (link : Link) (ds : List IPNet) :
    ∀ (m : GoMap (List Route)) (k : String) (l : List Route) (r : Route),
      m.get k = some l → r ∈ l →
      ∃ l2, (wantedRoutes cfg link ds m).get k = some l2 ∧ r ∈ l2 := by
  induction ds with
  | nil => intro m k l r h hr; exact ⟨l, h, hr⟩
  | cons d ds ih =>
    intro m k l r h hr
    simp only [wantedRoutes]
    by_cases hk : d.text = k
    · subst hk
      refine ih _ d.text ((m.get d.text).getD [] ++ [fillRouteDefaults
        { LinkIndex := link.Index, Dst := some d, Table := cfg.Table,
          Protocol := cfg.RouteProtocol, Priority := cfg.RouteMetric, Typ := 0, Rest := 0 }])
        r ?_ ?_
      · rw [GoMap.get_set]; simp
      · simp [h, hr]
    · refine ih _ k l r ?_ hr
      rw [GoMap.get_set]; simp [hk, h]

theorem wantedRoutes_complete (cfg : Config) (link : Link) (ds : List IPNet) :
    ∀ (m : GoMap (List Route)) (d : IPNet), d ∈ ds →
      ∃ l, (wantedRoutes cfg link ds m).get d.text = some l ∧ stampedRoute cfg link d ∈ l := by
  induction ds with
  | nil => intro m d h; simp at h
  | cons d0 ds ih =>
    intro m d h
    simp only [wantedRoutes, fillRouteDefaults_stamped]
    rcases List.mem_cons.1 h with rfl | h
    · refine wantedRoutes_keep cfg link ds _ d.text
        ((m.get d.text).getD [] ++ [stampedRoute cfg link d]) _ ?_ ?_
      · rw [GoMap.get_set]; simp
      · simp
    · exact ih _ d h

/-- The closure `checkWanted` over the map built from the managed routes says
exactly whether the route is one of the stamped routes. -/
theorem checkWanted_iff (cfg : Config) (link : Link) (ds : List IPNet) (rt : Route) :
    checkWanted (wantedRoutes cfg link ds []) rt = true ↔
      ∃ d ∈ ds, rt = stampedRoute cfg link d := by
  constructor
  · intro h
    unfold checkWanted at h
    cases hg : GoMap.get (wantedRoutes cfg link ds []) (ipNetString rt.Dst) with
    | none => simp [hg] at h
    | some l =>
      simp [hg, Route.Equal] at h
      rcases wantedRoutes_sound cfg link ds [] _ l rt (GoMap.mem_of_get hg) h with h1 | ⟨l0, h0, _⟩
      · exact h1
      · simp at h0
  · rintro ⟨d, hd, rfl⟩
    obtain ⟨l, hl, hmem⟩ := wantedRoutes_complete cfg link ds [] d hd
    unfold checkWanted
    have : ipNetString (stampedRoute cfg link d).Dst = d.text := rfl
    rw [this, hl]
    simp [Route.Equal, hmem]

theorem SyncRoutesReplace_log (w : World σ) (l : List Route) :
    ∀ (s : σ), ∀ ev ∈ (SyncRoutesReplace w l s).log, ∃ r ∈ l, ev.1 = Call.RouteReplace r := by
  induction l with
  | nil => intro s ev h; simp [SyncRoutesReplace] at h
  | cons r l ih =>
    intro s ev h
    simp only [SyncRoutesReplace] at h
    rcases andThen_log_mem h with h | h
    · simp at h; exact ⟨r, List.mem_cons_self _ _, by rw [h]⟩
    · obtain ⟨r2, h2, h3⟩ := ih _ ev h
      exact ⟨r2, List.mem_cons_of_mem _ h2, h3⟩

theorem SyncRoutesReplace_done (w : World σ) (l : List Route) :
    ∀ (s : σ), (SyncRoutesReplace w l s).ret = none →
      ∀ r ∈ l, (Call.RouteReplace r, none) ∈ (SyncRoutesReplace w l s).log := by
  induction l with
  | nil => intro s _ r h; simp at h
  | cons r0 l ih =>
    intro s hret r h
    simp only [SyncRoutesReplace] at hret ⊢
    obtain ⟨h1, h2⟩ := andThen_ret_none.1 hret
    rw [andThen_none h1]
    simp only [List.mem_append]
    rcases List.mem_cons.1 h with rfl | h
    · left; simp [h1]
    · right; exact ih _ h2 r h

theorem SyncRoutesUpsert_log (w : World σ) (m : List (String × List Route)) :
    ∀ (s : σ), ∀ ev ∈ (SyncRoutesUpsert w m s).log,
      ∃ k l r, (k, l) ∈ m ∧ r ∈ l ∧ ev.1 = Call.RouteReplace r := by
  induction m with
  | nil => intro s ev h; simp [SyncRoutesUpsert] at h
  | cons p m ih =>
    obtain ⟨k, l⟩ := p
    intro s ev h
    simp only [SyncRoutesUpsert] at h
    rcases andThen_log_mem h with h | h
    · obtain ⟨r, hr, h3⟩ := SyncRoutesReplace_log w l s ev h
      exact ⟨k, l, r, List.mem_cons_self _ _, hr, h3⟩
    · obtain ⟨k2, l2, r, h1, h2, h3⟩ := ih _ ev h
      exact ⟨k2, l2, r, List.mem_cons_of_mem _ h1, h2, h3⟩

theorem SyncRoutesUpsert_done (w : World σ) (m : List (String × List Route)) :
    ∀ (s : σ), (SyncRoutesUpsert w m s).ret = none →
      ∀ k l r, (k, l) ∈ m → r ∈ l →
        (Call.RouteReplace r, none) ∈ (SyncRoutesUpsert w m s).log := by
  induction m with
  | nil => intro s _ k l r h; simp at h
  | cons p m ih =>
    obtain ⟨k0, l0⟩ := p
    intro s hret k l r h hr
    simp only [SyncRoutesUpsert] at hret ⊢
    obtain ⟨h1, h2⟩ := andThen_ret_none.1 hret
    rw [andThen_none h1]
    simp only [List.mem_append]
    rcases List.mem_cons.1 h with h | h
    · left
      simp only [Prod.mk.injEq] at h
      obtain ⟨rfl, rfl⟩ := h
      exact SyncRoutesReplace_done w _ s h1 r hr
    · right; exact ih _ h2 k l r h hr

/-- Every call of the deletion scan deletes a listed route that is in the
configured table, carries the configured protocol tag and is not wanted. -/
theorem SyncRoutesScan_log (w : World σ) (cfg : Config) (wanted : GoMap (List Route))
    (present : List Route) :
    ∀ (s : σ), ∀ ev ∈ (SyncRoutesScan w cfg wanted present s).log,
      ∃ rt ∈ present, ev.1 = Call.RouteDel rt ∧
        (rt.Table = cfg.Table ∨ (cfg.Table = 0 ∧ rt.Table = RT_CLASS_MAIN)) ∧
        rt.Protocol = cfg.RouteProtocol ∧ checkWanted wanted rt = false := by
  induction present with
  | nil => intro s ev h; simp [SyncRoutesScan] at h
  | cons rt present ih =>
    intro s ev h
    have lift : (∃ rt2 ∈ present, ev.1 = Call.RouteDel rt2 ∧
        (rt2.Table = cfg.Table ∨ (cfg.Table = 0 ∧ rt2.Table = RT_CLASS_MAIN)) ∧
        rt2.Protocol = cfg.RouteProtocol ∧ checkWanted wanted rt2 = false) →
        ∃ rt2 ∈ rt :: present, ev.1 = Call.RouteDel rt2 ∧
        (rt2.Table = cfg.Table ∨ (cfg.Table = 0 ∧ rt2.Table = RT_CLASS_MAIN)) ∧
        rt2.Protocol = cfg.RouteProtocol ∧ checkWanted wanted rt2 = false := by
      rintro ⟨rt2, h1, h2⟩
      exact ⟨rt2, List.mem_cons_of_mem _ h1, h2⟩
    simp only [SyncRoutesScan] at h
    split at h
    · exact lift (ih _ ev h)
    · rename_i ht
      split at h
      · exact lift (ih _ ev h)
      · rename_i hp
        split at h
        · exact lift (ih _ ev h)
        · rename_i hw
          rcases andThen_log_mem h with h | h
          · simp at h
            refine ⟨rt, List.mem_cons_self _ _, by rw [h], ?_, ?_, ?_⟩
            · exact not_not.1 ht
            · exact not_not.1 hp
            · simpa using hw
          · exact lift (ih _ ev h)

end Routes

section RoutesTop

variable {σ : Type}

theorem insertion_fair : RangeOrder.insertion.Fair :=
  ⟨fun m => List.Perm.refl m, fun m => List.Perm.refl m⟩

theorem SyncRoutes_error (w : World σ) (o : RangeOrder) (cfg : Config) (link : Link)
    (managed : List IPNet) (s : σ) (e : Err) (h : (w.RouteList link AF_INET s).1 = .error e) :
    SyncRoutes w o cfg link managed s =
      ⟨some e, (w.RouteList link AF_INET s).2, [(Call.RouteList link AF_INET, some e)]⟩ := by
  simp [SyncRoutes, routeList, h, errOf]

theorem SyncRoutes_ok (w : World σ) (o : RangeOrder) (cfg : Config) (link : Link)
    (managed : List IPNet) (s : σ) (present : List Route)
    (h : (w.RouteList link AF_INET s).1 = .ok present) :
    SyncRoutes w o cfg link managed s =
      ((SyncRoutesUpsert w (o.route (wantedRoutes cfg link managed []))
          (w.RouteList link AF_INET s).2).andThen
        (SyncRoutesScan w cfg (wantedRoutes cfg link managed []) present)).logged
        [(Call.RouteList link AF_INET, none)] := by
  simp [SyncRoutes, routeList, h, errOf]

/-- Every event of `SyncRoutes` is the listing, the upsert of a route of the
wanted map, or the deletion of a listed, owned, unwanted route. -/
theorem SyncRoutes_log (w : World σ) (o : RangeOrder) (hfair : o.Fair) (cfg : Config)
    (link : Link) (managed : List IPNet) (s : σ) :
    ∀ ev ∈ (SyncRoutes w o cfg link managed s).log,
      ev.1 = Call.RouteList link AF_INET ∨
      (∃ d ∈ managed, ev.1 = Call.RouteReplace (stampedRoute cfg link d)) ∨
      (∃ rt, ev.1 = Call.RouteDel rt ∧
        (rt.Table = cfg.Table ∨ (cfg.Table = 0 ∧ rt.Table = RT_CLASS_MAIN)) ∧
        rt.Protocol = cfg.RouteProtocol ∧
        ¬ ∃ d ∈ managed, rt = stampedRoute cfg link d) := by
  intro ev hev
  cases h : (w.RouteList link AF_INET s).1 with
  | error e =>
    rw [SyncRoutes_error w o cfg link managed s e h] at hev
    simp at hev
    left; rw [hev]
  | ok present =>
    rw [SyncRoutes_ok w o cfg link managed s present h] at hev
    simp only [logged_log, List.singleton_append, List.mem_cons] at hev
    rcases hev with hev | hev
    · left; rw [hev]
    · rcases andThen_log_mem hev with hev | hev
      · right; left
        obtain ⟨k, l, r, h1, h2, h3⟩ := SyncRoutesUpsert_log w _ _ ev hev
        have h1 : (k, l) ∈ wantedRoutes cfg link managed [] := (hfair.2 _).mem_iff.1 h1
        rcases wantedRoutes_sound cfg link managed [] k l r h1 h2 with ⟨d, hd, rfl⟩ | ⟨l0, h0, _⟩
        · exact ⟨d, hd, h3⟩
        · simp at h0
      · right; right
        obtain ⟨rt, _, h2, h3, h4, h5⟩ := SyncRoutesScan_log w cfg _ present _ ev hev
        refine ⟨rt, h2, h3, h4, ?_⟩
        rw [← checkWanted_iff]
        simp [h5]

end RoutesTop

/-- C5: every route `SyncRoutes` upserts is, for some managed allowed-IP network `d`,
the route with the link's index, destination `d`, table `cfg.Table` or main (254) when
unset, protocol `cfg.RouteProtocol` or the boot tag (3) when unset, metric
`cfg.RouteMetric` and type unicast (1); when `SyncRoutes` succeeds every managed
network got that upsert; and for 10.0.0.0/24 with table and protocol unset the route
is boot-tagged, in the main table, unicast. -/
theorem SyncRoutes_upserts_stamped {σ : Type} (w : World σ) (o : RangeOrder) (hfair : o.Fair)
    (cfg : Config) (link : Link) (managed : List IPNet) (s : σ) :
    (∀ rt e, (Call.RouteReplace rt, e) ∈ (SyncRoutes w o cfg link managed s).log →
      ∃ d ∈ managed, rt =
        { LinkIndex := link.Index, Dst := some d,
          Table := if cfg.Table ≠ 0 then cfg.Table else 254,
          Protocol := if cfg.RouteProtocol ≠ 0 then cfg.RouteProtocol else 3,
          Priority := cfg.RouteMetric, Typ := 1, Rest := 0 }) ∧
    ((SyncRoutes w o cfg link managed s).ret = none →
      ∀ d ∈ managed, (Call.RouteReplace (stampedRoute cfg link d), none) ∈
        (SyncRoutes w o cfg link managed s).log) ∧
    stampedRoute sampleCfg wg0 net10 = ⟨7, some net10, 254, 3, 0, 1, 0⟩ := by
  refine ⟨?_, ?_, by decide⟩
  · intro rt e h
    rcases SyncRoutes_log w o hfair cfg link managed s _ h with h1 | ⟨d, hd, h1⟩ | ⟨r, h1, _⟩
    · simp at h1
    · simp only [Call.RouteReplace.injEq] at h1
      exact ⟨d, hd, h1⟩
    · simp at h1
  · intro hret d hd
    cases h : (w.RouteList link AF_INET s).1 with
    | error e =>
      rw [SyncRoutes_error w o cfg link managed s e h] at hret
      simp at hret
    | ok present =>
      rw [SyncRoutes_ok w o cfg link managed s present h] at hret ⊢
      simp only [logged_ret] at hret
      obtain ⟨h1, _⟩ := andThen_ret_none.1 hret
      rw [andThen_none h1]
      simp only [logged_log, List.singleton_append, List.mem_cons, List.mem_append]
      right; left
      obtain ⟨l, hl, hmem⟩ := wantedRoutes_complete cfg link managed [] d hd
      exact SyncRoutesUpsert_done w _ _ h1 d.text l _
        ((hfair.2 _).mem_iff.2 (GoMap.mem_of_get hl)) hmem

theorem SyncRoutes_upserts_stamped_witness :
    RangeOrder.insertion.Fair ∧
    (Call.RouteReplace ⟨7, some net10, 254, 3, 0, 1, 0⟩, none) ∈
      (SyncRoutes kernelWorld RangeOrder.insertion sampleCfg wg0 [net10] sampleKernel).log :=
  ⟨insertion_fair,
    (SyncRoutes_upserts_stamped kernelWorld RangeOrder.insertion insertion_fair sampleCfg wg0
      [net10] sampleKernel).2.1 (by decide) net10 (by decide)⟩

/-! ## Which calls each reconciler issues -/

section Shapes

variable {σ : Type}

theorem SyncLink_log (w : World σ) (cfg : Config) (iface : String) (s : σ) :
    ∀ ev ∈ (SyncLink w cfg iface s).log, ev.1.isLink = true := by
  unfold SyncLink
  simp only [linkByName, call]
  repeat' split
  all_goals simp [Call.isLink]

theorem SyncWireguardDevice_log (w : World σ) (cfg : Config) (link : Link) (s : σ) :
    ∀ ev ∈ (SyncWireguardDevice w cfg link s).log, ev.1.isDevice = true := by
  unfold SyncWireguardDevice
  apply andThen_log_all
  · exact call_log_all w _ _ (fun _ => rfl)
  · exact call_log_all w _ _ (fun _ => rfl)

theorem SyncAddressAdd_log (w : World σ) (cfg : Config) (link : Link) (ds : List IPNet) :
    ∀ (m : GoMap Addr) (s : σ), ∀ ev ∈ (SyncAddressAdd w cfg link ds m s).log,
      ∃ d ∈ ds, ev.1 = Call.AddrAdd link ⟨some d, cfg.AddressLabel, 0⟩ := by
  induction ds with
  | nil => intro m s ev h; simp [SyncAddressAdd] at h
  | cons d ds ih =>
    intro m s ev h
    have lift : (∃ d2 ∈ ds, ev.1 = Call.AddrAdd link ⟨some d2, cfg.AddressLabel, 0⟩) →
        ∃ d2 ∈ d :: ds, ev.1 = Call.AddrAdd link ⟨some d2, cfg.AddressLabel, 0⟩ := by
      rintro ⟨d2, h1, h2⟩; exact ⟨d2, List.mem_cons_of_mem _ h1, h2⟩
    simp only [SyncAddressAdd] at h
    split at h
    · exact lift (ih _ _ ev h)
    · split at h
      · split at h
        · simp at h
          exact ⟨d, List.mem_cons_self _ _, by rw [h]⟩
        · simp only [logged_log, call_log, List.singleton_append, List.mem_cons] at h
          rcases h with h | h
          · exact ⟨d, List.mem_cons_self _ _, by rw [h]⟩
          · exact lift (ih _ _ ev h)
      · simp only [logged_log, call_log, List.singleton_append, List.mem_cons] at h
        rcases h with h | h
        · exact ⟨d, List.mem_cons_self _ _, by rw [h]⟩
        · exact lift (ih _ _ ev h)

theorem SyncAddressDel_log (w : World σ) (link : Link) (m : List (String × Addr)) :
    ∀ (s : σ), ∀ ev ∈ (SyncAddressDel w link m s).log,
      ∃ k a, (k, a) ∈ m ∧ a.IPNet ≠ none ∧ ev.1 = Call.AddrDel link a := by
  induction m with
  | nil => intro s ev h; simp [SyncAddressDel] at h
  | cons p m ih =>
    obtain ⟨k, a⟩ := p
    intro s ev h
    have lift : (∃ k2 a2, (k2, a2) ∈ m ∧ a2.IPNet ≠ none ∧ ev.1 = Call.AddrDel link a2) →
        ∃ k2 a2, (k2, a2) ∈ (k, a) :: m ∧ a2.IPNet ≠ none ∧ ev.1 = Call.AddrDel link a2 := by
      rintro ⟨k2, a2, h1, h2⟩; exact ⟨k2, a2, List.mem_cons_of_mem _ h1, h2⟩
    simp only [SyncAddressDel] at h
    split at h
    · exact lift (ih _ ev h)
    · rename_i hn
      rcases andThen_log_mem h with h | h
      · simp at h
        exact ⟨k, a, List.mem_cons_self _ _, hn, by rw [h]⟩
      · exact lift (ih _ ev h)

theorem SyncAddress_list_error (w : World σ) (o : RangeOrder) (cfg : Config) (link : Link)
    (s : σ) (e : Err) (h : (w.AddrList link AF_INET s).1 = .error e) :
    SyncAddress w o cfg link s =
      ⟨some e, (w.AddrList link AF_INET s).2, [(Call.AddrList link AF_INET, some e)]⟩ := by
  simp [SyncAddress, addrList, h, errOf]

theorem SyncAddress_add_error (w : World σ) (o : RangeOrder) (cfg : Config) (link : Link)
    (s : σ) (addrs : List Addr) (e : Err) (h : (w.AddrList link AF_INET s).1 = .ok addrs)
    (ha : (SyncAddressAdd w cfg link cfg.Address (presentAddresses addrs [])
      (w.AddrList link AF_INET s).2).ret = .error e) :
    SyncAddress w o cfg link s =
      ⟨some e, (SyncAddressAdd w cfg link cfg.Address (presentAddresses addrs [])
          (w.AddrList link AF_INET s).2).st,
        (Call.AddrList link AF_INET, none) ::
          (SyncAddressAdd w cfg link cfg.Address (presentAddresses addrs [])
            (w.AddrList link AF_INET s).2).log⟩ := by
  simp [SyncAddress, addrList, h, ha, errOf]

theorem SyncAddress_ok (w : World σ) (o : RangeOrder) (cfg : Config) (link : Link)
    (s : σ) (addrs : List Addr) (m : GoMap Addr) (h : (w.AddrList link AF_INET s).1 = .ok addrs)
    (ha : (SyncAddressAdd w cfg link cfg.Address (presentAddresses addrs [])
      (w.AddrList link AF_INET s).2).ret = .ok m) :
    SyncAddress w o cfg link s =
      (SyncAddressDel w link (o.addr m)
        (SyncAddressAdd w cfg link cfg.Address (presentAddresses addrs [])
          (w.AddrList link AF_INET s).2).st).logged
        ((Call.AddrList link AF_INET, none) ::
          (SyncAddressAdd w cfg link cfg.Address (presentAddresses addrs [])
            (w.AddrList link AF_INET s).2).log) := by
  simp [SyncAddress, addrList, h, ha, errOf]

theorem SyncAddress_log (w : World σ) (o : RangeOrder) (cfg : Config) (link : Link) (s : σ) :
    ∀ ev ∈ (SyncAddress w o cfg link s).log, ev.1.isAddr = true := by
  intro ev hev
  cases h : (w.AddrList link AF_INET s).1 with
  | error e =>
    rw [SyncAddress_list_error w o cfg link s e h] at hev
    simp at hev; rw [hev]; rfl
  | ok addrs =>
    cases ha : (SyncAddressAdd w cfg link cfg.Address (presentAddresses addrs [])
        (w.AddrList link AF_INET s).2).ret with
    | error e =>
      rw [SyncAddress_add_error w o cfg link s addrs e h ha] at hev
      simp only [List.mem_cons] at hev
      rcases hev with hev | hev
      · rw [hev]; rfl
      · obtain ⟨d, _, h⟩ := SyncAddressAdd_log w cfg link _ _ _ ev hev
        rw [h]; rfl
    | ok m =>
      rw [SyncAddress_ok w o cfg link s addrs m h ha] at hev
      simp only [logged_log, List.cons_append, List.mem_cons, List.mem_append] at hev
      rcases hev with hev | hev | hev
      · rw [hev]; rfl
      · obtain ⟨d, _, h⟩ := SyncAddressAdd_log w cfg link _ _ _ ev hev
        rw [h]; rfl
      · obtain ⟨k, a, _, _, h⟩ := SyncAddressDel_log w link _ _ ev hev
        rw [h]; rfl

/-- Every route deletion of `SyncRoutes` is for a route carrying the configured
protocol tag, whatever order the wanted map is ranged in. -/
theorem SyncRoutes_del (w : World σ) (o : RangeOrder) (cfg : Config)
    (link : Link) (managed : List IPNet) (s : σ) :
    ∀ ev ∈ (SyncRoutes w o cfg link managed s).log, ∀ rt, ev.1 = Call.RouteDel rt →
      rt.Protocol = cfg.RouteProtocol := by
  intro ev hev rt hrt
  cases h : (w.RouteList link AF_INET s).1 with
  | error e =>
    rw [SyncRoutes_error w o cfg link managed s e h] at hev
    simp at hev
    rw [hev] at hrt; simp at hrt
  | ok present =>
    rw [SyncRoutes_ok w o cfg link managed s present h] at hev
    simp only [logged_log, List.singleton_append, List.mem_cons] at hev
    rcases hev with hev | hev
    · rw [hev] at hrt; simp at hrt
    · rcases andThen_log_mem hev with hev | hev
      · obtain ⟨k, l, r, _, _, h3⟩ := SyncRoutesUpsert_log w _ _ ev hev
        rw [h3] at hrt; simp at hrt
      · obtain ⟨rt2, _, h2, _, h4, _⟩ := SyncRoutesScan_log w cfg _ present _ ev hev
        rw [h2] at hrt
        simp only [Call.RouteDel.injEq] at hrt
        subst hrt; exact h4

theorem Sync_error (w : World σ) (o : RangeOrder) (cfg : Config) (iface : String) (s : σ)
    (e : Err) (h : (SyncLink w cfg iface s).ret = .error e) :
    Sync w o cfg iface s =
      ⟨some e, (SyncLink w cfg iface s).st, (SyncLink w cfg iface s).log⟩ := by
  simp [Sync, h]

theorem Sync_ok (w : World σ) (o : RangeOrder) (cfg : Config) (iface : String) (s : σ)
    (link : Link) (h : (SyncLink w cfg iface s).ret = .ok link) :
    Sync w o cfg iface s =
      ((SyncWireguardDevice w cfg link (SyncLink w cfg iface s).st).andThen fun s2 =>
        (SyncAddress w o cfg link s2).andThen
          (SyncRoutes w o cfg link (managedRoutes cfg))).logged (SyncLink w cfg iface s).log := by
  simp [Sync, h]

/-- A property of every call of the four reconcilers holds of every call of `Sync`. -/
theorem Sync_log_all (w : World σ) (o : RangeOrder) (cfg : Config) (iface : String) (s : σ)
    (P : Event → Prop)
    (hl : ∀ ev ∈ (SyncLink w cfg iface s).log, P ev)
    (hd : ∀ link s2, ∀ ev ∈ (SyncWireguardDevice w cfg link s2).log, P ev)
    (ha : ∀ link s2, ∀ ev ∈ (SyncAddress w o cfg link s2).log, P ev)
    (hr : ∀ link s2, ∀ ev ∈ (SyncRoutes w o cfg link (managedRoutes cfg) s2).log, P ev) :
    ∀ ev ∈ (Sync w o cfg iface s).log, P ev := by
  intro ev hev
  cases h : (SyncLink w cfg iface s).ret with
  | error e =>
    rw [Sync_error w o cfg iface s e h] at hev
    exact hl ev hev
  | ok link =>
    rw [Sync_ok w o cfg iface s link h] at hev
    simp only [logged_log, List.mem_append] at hev
    rcases hev with hev | hev
    · exact hl ev hev
    · revert ev
      apply andThen_log_all (hd _ _)
      apply andThen_log_all (ha _ _) (hr _ _)

end Shapes

/-- C2: a route whose protocol tag differs from `cfg.RouteProtocol` is never the
argument of a route deletion issued by `SyncRoutes` or by `Sync`, for every world,
range order, link, desired route list and starting state, whatever the route's
table, metric or destination. -/
theorem foreign_route_never_deleted {σ : Type} (w : World σ) (o : RangeOrder) (cfg : Config)
    (rt : Route) (e : Option Err) (h : rt.Protocol ≠ cfg.RouteProtocol) :
    (∀ link managed s, (Call.RouteDel rt, e) ∉ (SyncRoutes w o cfg link managed s).log) ∧
    (∀ iface s, (Call.RouteDel rt, e) ∉ (Sync w o cfg iface s).log) := by
  constructor
  · intro link managed s hmem
    exact h (SyncRoutes_del w o cfg link managed s _ hmem rt rfl)
  · intro iface s hmem
    have key := Sync_log_all w o cfg iface s
      (fun ev => ∀ r, ev.1 = Call.RouteDel r → r.Protocol = cfg.RouteProtocol)
      (fun ev hev r hr => by have := SyncLink_log w cfg iface s ev hev; rw [hr] at this; cases this)
      (fun link s2 ev hev r hr => by
        have := SyncWireguardDevice_log w cfg link s2 ev hev; rw [hr] at this; cases this)
      (fun link s2 ev hev r hr => by
        have := SyncAddress_log w o cfg link s2 ev hev; rw [hr] at this; cases this)
      (fun link s2 => SyncRoutes_del w o cfg link (managedRoutes cfg) s2)
    exact h (key _ hmem rt rfl)

theorem foreign_route_never_deleted_witness :
    (186 : Int) ≠ sampleCfg.RouteProtocol ∧
    (Call.RouteDel ⟨7, some net10, 254, 186, 0, 1, 0⟩, none) ∉
      (Sync kernelWorld RangeOrder.insertion sampleCfg "wg0" sampleKernel).log :=
  ⟨by decide,
    (foreign_route_never_deleted kernelWorld RangeOrder.insertion sampleCfg
      ⟨7, some net10, 254, 186, 0, 1, 0⟩ none (by decide)).2 "wg0" sampleKernel⟩

/-! ## Up and Down -/

section UpDown

variable {σ : Type}

theorem UpDNS_log (w : World σ) (iface : String) (dns : List String) :
    ∀ (s : σ), ∀ ev ∈ (UpDNS w iface dns s).log, ev.1.isSh = true := by
  induction dns with
  | nil => intro s ev h; simp [UpDNS] at h
  | cons d dns ih =>
    intro s
    simp only [UpDNS]
    apply andThen_log_all
    · exact call_log_all w _ _ (fun _ => rfl)
    · exact ih _

theorem hook_log (w : World σ) (command iface : String) (s : σ) :
    ∀ ev ∈ (hook w command iface s).log, ev.1.isSh = true := by
  unfold hook
  split
  · exact call_log_all w _ _ (fun _ => rfl)
  · intro ev h; simp at h

theorem Up_missing (w : World σ) (o : RangeOrder) (cfg : Config) (iface : String) (s : σ)
    (h : (w.LinkByName iface s).1 = .error Err.LinkNotFound) :
    Up w o cfg iface s =
      ((UpDNS w iface cfg.DNS (w.LinkByName iface s).2).andThen fun s2 =>
        (hook w cfg.PreUp iface s2).andThen fun s3 =>
          (Sync w o cfg iface s3).andThen (hook w cfg.PostUp iface)).logged
        [(Call.LinkByName iface, some Err.LinkNotFound)] := by
  simp [Up, linkByName, h, errOf]

end UpDown

/-- C6: when the lookup of the interface name finds a link, `Up` returns the
already-exists error `os.ErrExist` and the lookup is the only call it issued: no DNS
registration, no hook, no link, device, address or route call; on the kernel model the
state is left as it was. -/
theorem Up_existing_link {σ : Type} (w : World σ) (o : RangeOrder) (cfg : Config)
    (iface : String) (s : σ) (link : Link) (h : (w.LinkByName iface s).1 = .ok link) :
    Up w o cfg iface s =
      ⟨some Err.ErrExist, (w.LinkByName iface s).2, [(Call.LinkByName iface, none)]⟩ ∧
    (∀ k : Kernel, (∃ l ∈ k.links, l.Name = iface) →
      Up kernelWorld o cfg iface k = ⟨some Err.ErrExist, k, [(Call.LinkByName iface, none)]⟩) := by
  constructor
  · simp [Up, linkByName, h, errOf]
  · rintro k ⟨l, hl, hn⟩
    cases hf : k.links.find? (fun l => decide (l.Name = iface)) with
    | none =>
      rw [List.find?_eq_none] at hf
      have := hf l hl
      simp [hn] at this
    | some l2 => simp [Up, linkByName, kernelWorld, hf, errOf]

theorem Up_existing_link_witness :
    (kernelWorld.LinkByName "wg0" sampleKernel).1 = .ok wg0 ∧
    Up kernelWorld RangeOrder.insertion sampleCfg "wg0" sampleKernel =
      ⟨some Err.ErrExist, sampleKernel, [(Call.LinkByName "wg0", none)]⟩ :=
  ⟨rfl,
    (Up_existing_link kernelWorld RangeOrder.insertion sampleCfg "wg0" sampleKernel wg0
      rfl).1⟩

/-- C7: when the lookup of the interface name fails, `Down` returns the lookup's error
and the lookup is the only call it issued: no DNS deregistration, no hook, no link
deletion; on the kernel model, where no link carries the name, the error is
`LinkNotFound` and the state is left as it was. -/
theorem Down_missing_link {σ : Type} (w : World σ) (cfg : Config) (iface : String) (s : σ)
    (e : Err) (h : (w.LinkByName iface s).1 = .error e) :
    Down w cfg iface s =
      ⟨some e, (w.LinkByName iface s).2, [(Call.LinkByName iface, some e)]⟩ ∧
    (∀ k : Kernel, (∀ l ∈ k.links, l.Name ≠ iface) →
      Down kernelWorld cfg iface k =
        ⟨some Err.LinkNotFound, k, [(Call.LinkByName iface, some Err.LinkNotFound)]⟩) := by
  constructor
  · simp [Down, linkByName, h, errOf]
  · intro k hk
    have hf : k.links.find? (fun l => decide (l.Name = iface)) = none := by
      rw [List.find?_eq_none]
      intro l hl
      simpa using hk l hl
    simp [Down, linkByName, kernelWorld, hf, errOf]

theorem Down_missing_link_witness :
    (kernelWorld.LinkByName "wg0" emptyKernel).1 = .error Err.LinkNotFound ∧
    Down kernelWorld sampleCfg "wg0" emptyKernel =
      ⟨some Err.LinkNotFound, emptyKernel, [(Call.LinkByName "wg0", some Err.LinkNotFound)]⟩ :=
  ⟨rfl,
    (Down_missing_link kernelWorld sampleCfg "wg0" emptyKernel Err.LinkNotFound rfl).1⟩

/-- C8: run `Up` where the lookup reports the link missing, and let the DNS
registrations succeed.  If the PreUp hook then fails with `e`, `Up` returns `e` and has
issued, after its lookup, shell commands only: no step of `Sync` ran.  If PreUp succeeds,
PostUp is run exactly when `Sync` returned no error: then a failure `e` of PostUp is what
`Up` returns, in the state `Sync` left and after all of the calls of `Sync`; and when
`Sync` fails, `Up` returns the error of `Sync` without running PostUp. -/
theorem Up_hook_failures {σ : Type} (w : World σ) (o : RangeOrder) (cfg : Config)
    (iface : String) (s : σ) (e : Err)
    (h : (w.LinkByName iface s).1 = .error Err.LinkNotFound) :
    let dns := UpDNS w iface cfg.DNS (w.LinkByName iface s).2
    let pre := hook w cfg.PreUp iface dns.st
    let sync := Sync w o cfg iface pre.st
    let post := hook w cfg.PostUp iface sync.st
    (dns.ret = none → pre.ret = some e →
      Up w o cfg iface s =
        ⟨some e, pre.st, (Call.LinkByName iface, some Err.LinkNotFound) :: (dns.log ++ pre.log)⟩ ∧
      ∀ ev ∈ dns.log ++ pre.log, ev.1.isSh = true) ∧
    (dns.ret = none → pre.ret = none →
      (sync.ret = none → post.ret = some e →
        Up w o cfg iface s =
          ⟨some e, post.st, (Call.LinkByName iface, some Err.LinkNotFound) ::
            (dns.log ++ (pre.log ++ (sync.log ++ post.log)))⟩) ∧
      (∀ e2, sync.ret = some e2 →
        Up w o cfg iface s =
          ⟨some e2, sync.st, (Call.LinkByName iface, some Err.LinkNotFound) ::
            (dns.log ++ (pre.log ++ sync.log))⟩)) := by
  intro dns pre sync post
  refine ⟨fun hd hp => ⟨?_, ?_⟩, fun hd hp => ⟨fun hs hq => ?_, fun e2 hs => ?_⟩⟩
  · rw [Up_missing w o cfg iface s h, andThen_none hd]
    simp only [Out.logged]
    rw [andThen_some hp]
    rfl
  · intro ev hev
    rcases List.mem_append.1 hev with hev | hev
    · exact UpDNS_log w iface cfg.DNS _ ev hev
    · exact hook_log w cfg.PreUp iface _ ev hev
  · rw [Up_missing w o cfg iface s h, andThen_none hd]
    simp only [Out.logged]
    rw [andThen_none hp]
    simp only
    rw [andThen_none hs]
    have hq2 : (hook w cfg.PostUp iface sync.st).ret = some e := hq
    rw [hq2]
    rfl
  · rw [Up_missing w o cfg iface s h, andThen_none hd]
    simp only [Out.logged]
    rw [andThen_none hp]
    simp only
    rw [andThen_some hs]
    rfl

theorem Up_hook_failures_witness :
    (kernelWorld.LinkByName "wg0" emptyKernel).1 = .error Err.LinkNotFound ∧
    Up kernelWorld RangeOrder.insertion failingPreUp "wg0" emptyKernel =
      ⟨some (Err.other 1), emptyKernel,
        [(Call.LinkByName "wg0", some Err.LinkNotFound),
         (Call.Sh "resolvconf -a tun.wg0 -m 0 -x" (some "nameserver 1.1.1.1\n"), none),
         (Call.Sh "resolvconf -a tun.wg0 -m 0 -x" (some "nameserver 9.9.9.9\n"), none),
         (Call.Sh "false" none, some (Err.other 1))]⟩ ∧
    (Up kernelWorld RangeOrder.insertion failingPostUp "wg0" emptyKernel).ret =
      some (Err.other 1) ∧
    (Up kernelWorld RangeOrder.insertion failingPostUp "wg0" emptyKernel).st.routes =
      [⟨1, some net10, 254, 3, 0, 1, 0⟩] :=
  ⟨rfl,
    ((Up_hook_failures kernelWorld RangeOrder.insertion failingPreUp "wg0" emptyKernel
      (Err.other 1) rfl).1 (by decide) (by decide)).1,
    by decide, by decide⟩

/-- C10 (the code departs from it): the deregistration command of `Down` holds no
`%i`, so `execSh` passes it to the shell unchanged for every interface name; run on the
sample kernel for `wg0`, `Down` executes `resolvconf -d tun.%s`, while `Up` registers
under `tun.wg0`. -/
theorem Down_dns_command_not_substituted :
    (∀ iface : String,
      ReplaceAll "resolvconf -d tun.%s" "%i" iface = "resolvconf -d tun.%s") ∧
    (Down kernelWorld sampleCfg "wg0" sampleKernel).log =
      [(Call.LinkByName "wg0", none),
       (Call.Sh "resolvconf -d tun.%s" none, none),
       (Call.LinkDel wg0, none)] ∧
    ReplaceAll "resolvconf -d tun.%i" "%i" "wg0" = "resolvconf -d tun.wg0" ∧
    (Up kernelWorld RangeOrder.insertion sampleCfg "wg0" emptyKernel).log.take 2 =
      [(Call.LinkByName "wg0", some Err.LinkNotFound),
       (Call.Sh "resolvconf -a tun.wg0 -m 0 -x" (some "nameserver 1.1.1.1\n"), none)] := by
  refine ⟨fun iface => ?_, by decide, by decide, by decide⟩
  rfl

/-- C3 (the code departs from it): with table and protocol tag unset, `Sync` stamps the
boot tag on the route it upserts, yet leaves in place the boot-tagged main-table route
to 192.168.9.0/24, a prefix no peer allows: it succeeds and its only route calls are the
listing and the upsert. -/
theorem stale_boot_route_survives :
    sampleCfg.Table = 0 ∧ sampleCfg.RouteProtocol = 0 ∧
    managedRoutes sampleCfg = [net10] ∧
    (⟨7, some net192, 254, 3, 0, 1, 0⟩ : Route) ∈ sampleKernel.routeList wg0 AF_INET ∧
    (Sync kernelWorld RangeOrder.insertion sampleCfg "wg0" sampleKernel).ret = none ∧
    (Sync kernelWorld RangeOrder.insertion sampleCfg "wg0" sampleKernel).log.filter
        (fun ev => ev.1.isRoute) =
      [(Call.RouteList wg0 AF_INET, none),
       (Call.RouteReplace ⟨7, some net10, 254, 3, 0, 1, 0⟩, none)] ∧
    (⟨7, some net192, 254, 3, 0, 1, 0⟩ : Route) ∈
      (Sync kernelWorld RangeOrder.insertion sampleCfg "wg0" sampleKernel).st.routes := by
  decide

/-! ## The address reconciler: errors and issued calls -/

section AddrCalls

variable {σ : Type}

theorem Follows_error_single (c : Call) (e : Err) (planned : List Call)
    (hf : fatal (c, some e) = true) : Follows (some e) [(c, some e)] (c :: planned) := by
  constructor
  · intro h; cases h
  · intro e2 h2
    cases h2
    exact ⟨[], c, rfl, hf, by simp, by simp⟩

theorem Follows_append {ret : Option Err} {log1 log2 : List Event} {p1 p2 : List Call}
    (h1 : log1.map Prod.fst = p1) (hn : ∀ ev ∈ log1, fatal ev = false)
    (h2 : Follows ret log2 p2) : Follows ret (log1 ++ log2) (p1 ++ p2) := by
  refine ⟨fun h => ?_, fun e h => ?_⟩
  · obtain ⟨ha, hb⟩ := h2.1 h
    refine ⟨by simp [h1, ha], ?_⟩
    intro ev hev
    rcases List.mem_append.1 hev with hev | hev
    · exact hn ev hev
    · exact hb ev hev
  · obtain ⟨pre, c, ha, hb, hc, hd⟩ := h2.2 e h
    refine ⟨log1 ++ pre, c, by simp [ha], hb, ?_, ?_⟩
    · intro ev hev
      rcases List.mem_append.1 hev with hev | hev
      · exact hn ev hev
      · exact hc ev hev
    · obtain ⟨t, ht⟩ := hd
      refine ⟨t, ?_⟩
      simp [h1, ← ht]

theorem Follows_extend {e : Err} {log : List Event} {p q : List Call}
    (h : Follows (some e) log p) : Follows (some e) log (p ++ q) := by
  constructor
  · intro h0; cases h0
  · intro e2 h2
    obtain ⟨pre, c, ha, hb, hc, hd⟩ := h.2 e2 h2
    exact ⟨pre, c, ha, hb, hc, hd.trans (List.prefix_append _ _)⟩

theorem presentAddresses_get (addrs : List Addr) :
    ∀ (m : GoMap Addr) (k : String),
      ((presentAddresses addrs m).get k).isSome = true ↔
        (k ∈ addrs.map (fun a => ipNetString a.IPNet) ∨ (m.get k).isSome = true) := by
  induction addrs with
  | nil => intro m k; simp [presentAddresses]
  | cons a addrs ih =>
    intro m k
    simp only [presentAddresses, List.map_cons, List.mem_cons]
    rw [ih, GoMap.get_set]
    by_cases h : ipNetString a.IPNet = k
    · simp [h]
    · simp [h, Ne.symm h]

theorem SyncAddressAdd_follows (w : World σ) (cfg : Config) (link : Link) (ds : List IPNet) :
    ∀ (m : GoMap Addr) (s : σ) (seen : List String),
      (∀ k, (m.get k).isSome = true ↔ k ∈ seen) →
      Follows (errOf (SyncAddressAdd w cfg link ds m s).ret)
        (SyncAddressAdd w cfg link ds m s).log (plannedAdds cfg link ds seen) ∧
      (∀ m2, (SyncAddressAdd w cfg link ds m s).ret = .ok m2 → m2 = marked ds m) := by
  induction ds with
  | nil =>
    intro m s seen _
    simp [SyncAddressAdd, plannedAdds, marked, Follows, errOf]
  | cons a rest ih =>
    intro m s seen hinv
    have hset : ∀ seen2 : List String, (∀ k, k ∈ seen2 ↔ (k = a.text ∨ k ∈ seen)) →
        ∀ k, ((GoMap.set m a.text (⟨none, "", 0⟩ : Addr)).get k).isSome = true ↔ k ∈ seen2 := by
      intro seen2 h2 k
      rw [GoMap.get_set, h2]
      by_cases hk : a.text = k
      · simp [hk]
      · simp [hk, Ne.symm hk, hinv]
    by_cases hp : (m.get a.text).isSome = true
    · have hmem : a.text ∈ seen := (hinv _).1 hp
      have := ih (GoMap.set m a.text ⟨none, "", 0⟩) s seen (hset seen (fun k => by
        constructor
        · exact Or.inr
        · rintro (rfl | h)
          · exact hmem
          · exact h))
      simpa [SyncAddressAdd, hp, plannedAdds, hmem, marked] using this
    · have hmem : a.text ∉ seen := fun h => hp ((hinv _).2 h)
      have hrec := ih (GoMap.set m a.text ⟨none, "", 0⟩)
        (call w (Call.AddrAdd link ⟨some a, cfg.AddressLabel, 0⟩) s).st (a.text :: seen)
        (hset (a.text :: seen) (fun k => by simp))
      have hcons : ∀ r : Option Err, fatal (Call.AddrAdd link ⟨some a, cfg.AddressLabel, 0⟩, r) = false →
          Follows (errOf (SyncAddressAdd w cfg link rest (GoMap.set m a.text ⟨none, "", 0⟩)
              (call w (Call.AddrAdd link ⟨some a, cfg.AddressLabel, 0⟩) s).st).ret)
            ([(Call.AddrAdd link ⟨some a, cfg.AddressLabel, 0⟩, r)] ++
              (SyncAddressAdd w cfg link rest (GoMap.set m a.text ⟨none, "", 0⟩)
                (call w (Call.AddrAdd link ⟨some a, cfg.AddressLabel, 0⟩) s).st).log)
            ([Call.AddrAdd link ⟨some a, cfg.AddressLabel, 0⟩] ++
              plannedAdds cfg link rest (a.text :: seen)) := by
        intro r hr
        exact Follows_append rfl (by simpa using hr) hrec.1
      simp only [SyncAddressAdd, hp, plannedAdds, hmem, if_false, Bool.false_eq_true]
      cases hr : (call w (Call.AddrAdd link ⟨some a, cfg.AddressLabel, 0⟩) s).ret with
      | none =>
        simp only [logged_ret, logged_log, call_log, hr]
        refine ⟨hcons none rfl, ?_⟩
        intro m2 h2
        simpa [marked] using hrec.2 m2 h2
      | some e =>
        by_cases he : e = Err.EEXIST
        · subst he
          simp only [ne_eq, not_true_eq_false, if_false, logged_ret, logged_log, call_log, hr]
          refine ⟨hcons (some Err.EEXIST) rfl, ?_⟩
          intro m2 h2
          simpa [marked] using hrec.2 m2 h2
        · simp only [ne_eq, he, not_false_eq_true, if_true, call_log, hr, errOf]
          refine ⟨Follows_error_single _ e _ (by simp [fatal, he]), ?_⟩
          intro m2 h2
          cases h2

theorem SyncAddressDel_follows (w : World σ) (link : Link) (entries : List (String × Addr)) :
    ∀ (s : σ), Follows (SyncAddressDel w link entries s).ret
      (SyncAddressDel w link entries s).log (plannedDels link entries) := by
  induction entries with
  | nil => intro s; simp [SyncAddressDel, plannedDels, Follows]
  | cons p entries ih =>
    obtain ⟨k, a⟩ := p
    intro s
    by_cases hn : a.IPNet = none
    · simpa [SyncAddressDel, plannedDels, hn] using ih s
    · have hpl : plannedDels link ((k, a) :: entries) =
          [Call.AddrDel link a] ++ plannedDels link entries := by
        simp [plannedDels, hn]
      simp only [SyncAddressDel, hn, if_false]
      rw [hpl]
      cases hr : (call w (Call.AddrDel link a) s).ret with
      | none =>
        rw [andThen_none hr]
        simp only [call_log, hr]
        exact Follows_append rfl (by simp [fatal]) (ih _)
      | some e =>
        rw [andThen_some hr]
        simp only [call_log, hr]
        exact Follows_error_single _ e _ rfl

/-- The run of `SyncAddress` follows the plan computed from the listing. -/
theorem SyncAddress_follows (w : World σ) (o : RangeOrder) (cfg : Config) (link : Link)
    (s : σ) (addrs : List Addr) (h : (w.AddrList link AF_INET s).1 = .ok addrs) :
    Follows (SyncAddress w o cfg link s).ret (SyncAddress w o cfg link s).log
      (plannedCalls o cfg link addrs) := by
  have hinv : ∀ k, ((presentAddresses addrs []).get k).isSome = true ↔
      k ∈ addrs.map (fun a => ipNetString a.IPNet) := by
    intro k; rw [presentAddresses_get]; simp [GoMap.get]
  obtain ⟨hadd, hm⟩ := SyncAddressAdd_follows w cfg link cfg.Address
    (presentAddresses addrs []) (w.AddrList link AF_INET s).2 _ hinv
  have hfirst : ∀ ev ∈ [((Call.AddrList link AF_INET, none) : Event)], fatal ev = false := by
    simp [fatal]
  cases ha : (SyncAddressAdd w cfg link cfg.Address (presentAddresses addrs [])
      (w.AddrList link AF_INET s).2).ret with
  | error e =>
    rw [SyncAddress_add_error w o cfg link s addrs e h ha]
    rw [ha] at hadd
    exact @Follows_append _ [(Call.AddrList link AF_INET, none)] _ [Call.AddrList link AF_INET] _
      rfl hfirst (Follows_extend hadd)
  | ok m =>
    rw [SyncAddress_ok w o cfg link s addrs m h ha]
    rw [ha] at hadd
    obtain ⟨h1, h2⟩ := hadd.1 rfl
    have hm2 := hm m ha
    subst hm2
    simp only [logged_ret, logged_log]
    exact @Follows_append _ [(Call.AddrList link AF_INET, none)] _ [Call.AddrList link AF_INET] _
      rfl hfirst (Follows_append h1 h2 (SyncAddressDel_follows w link _ _))

theorem Follows_ret_none {ret : Option Err} {log : List Event} {planned : List Call}
    (h : Follows ret log planned) : ret = none ↔ ∀ ev ∈ log, fatal ev = false := by
  constructor
  · intro h0; exact (h.1 h0).2
  · intro hall
    cases hr : ret with
    | none => rfl
    | some e =>
      obtain ⟨pre, c, ha, hb, _, _⟩ := h.2 e hr
      have := hall (c, some e) (by rw [ha]; simp)
      rw [this] at hb; cases hb

theorem Follows_last {ret : Option Err} {log : List Event} {planned : List Call}
    (h : Follows ret log planned) (pre : List Event) (ev : Event) (post : List Event)
    (hlog : log = pre ++ ev :: post) (hf : fatal ev = true) : post = [] ∧ ret = ev.2 := by
  cases hr : ret with
  | none =>
    have := (h.1 hr).2 ev (by rw [hlog]; simp)
    rw [this] at hf; cases hf
  | some e =>
    obtain ⟨pre2, c, ha, _, hc, _⟩ := h.2 e hr
    rcases List.eq_nil_or_concat post with hp | ⟨q, y, hp⟩
    · subst hp
      rw [hlog] at ha
      have := List.append_inj_right' ha rfl
      simp only [List.cons.injEq, and_true] at this
      subst this
      exact ⟨rfl, rfl⟩
    · rw [List.concat_eq_append] at hp
      subst hp
      rw [hlog] at ha
      have h3 : pre ++ ev :: (q ++ [y]) = (pre ++ ev :: q) ++ [y] := by simp
      rw [h3] at ha
      have := List.append_inj_left' ha rfl
      have hmem : ev ∈ pre2 := by rw [← this]; simp
      have := hc ev hmem
      rw [this] at hf; cases hf

theorem Follows_initial {ret : Option Err} {log : List Event} {planned : List Call}
    (h : Follows ret log planned) : log.map Prod.fst <+: planned := by
  cases hr : ret with
  | none => rw [(h.1 hr).1]
  | some e =>
    obtain ⟨pre, c, ha, _, _, hd⟩ := h.2 e hr
    rw [ha]; simpa using hd

end AddrCalls

/-- C9: `SyncAddress` returns nil exactly when no call failed fatally, a fatal failure
being a failed listing, a failed add with an error other than `EEXIST`, or a failed
delete; a fatal failure is the last call issued and its error is the one returned; and
given the listing, the calls issued are an initial part of the planned calls, all of
them when nil is returned, so after an add answered `EEXIST` the remaining adds and the
deletes are still issued (as in the sample run, where the add of the bound IPv6 address
is answered `EEXIST` and the delete of A follows). -/
theorem SyncAddress_error_iff {σ : Type} (w : World σ) (o : RangeOrder) (cfg : Config)
    (link : Link) (s : σ) :
    ((SyncAddress w o cfg link s).ret = none ↔
      ∀ ev ∈ (SyncAddress w o cfg link s).log, fatal ev = false) ∧
    (∀ pre ev post, (SyncAddress w o cfg link s).log = pre ++ ev :: post → fatal ev = true →
      post = [] ∧ (SyncAddress w o cfg link s).ret = ev.2) ∧
    (∀ addrs, (w.AddrList link AF_INET s).1 = .ok addrs →
      (SyncAddress w o cfg link s).log.map Prod.fst <+: plannedCalls o cfg link addrs ∧
      ((SyncAddress w o cfg link s).ret = none →
        (SyncAddress w o cfg link s).log.map Prod.fst = plannedCalls o cfg link addrs)) ∧
    (SyncAddress kernelWorld RangeOrder.insertion dualCfg wg0 dualKernel).ret = none ∧
    (SyncAddress kernelWorld RangeOrder.insertion dualCfg wg0 dualKernel).log =
      [(Call.AddrList wg0 AF_INET, none),
       (Call.AddrAdd wg0 ⟨some net6, "wg0", 0⟩, some Err.EEXIST),
       (Call.AddrDel wg0 ⟨some netA, "wg0", 0⟩, none)] := by
  have key : ∃ planned, Follows (SyncAddress w o cfg link s).ret
      (SyncAddress w o cfg link s).log planned := by
    cases h : (w.AddrList link AF_INET s).1 with
    | error e =>
      rw [SyncAddress_list_error w o cfg link s e h]
      exact ⟨[Call.AddrList link AF_INET], Follows_error_single _ e [] rfl⟩
    | ok addrs => exact ⟨_, SyncAddress_follows w o cfg link s addrs h⟩
  obtain ⟨planned, hf⟩ := key
  refine ⟨Follows_ret_none hf, Follows_last hf, ?_, by decide, by decide⟩
  intro addrs h
  have hf2 := SyncAddress_follows w o cfg link s addrs h
  exact ⟨Follows_initial hf2, fun hr => (hf2.1 hr).1⟩

/-! ## More on Go maps -/

section Maps2

variable {V : Type}

theorem GoMap.keys_set (m : GoMap V) (k : String) (v : V) :
    ∀ k2, k2 ∈ (m.set k v).map Prod.fst ↔ (k2 = k ∨ k2 ∈ m.map Prod.fst) := by
  induction m with
  | nil => intro k2; simp [GoMap.set]
  | cons p m ih =>
    obtain ⟨k1, v1⟩ := p
    intro k2
    by_cases h1 : k1 = k
    · subst h1; simp [GoMap.set]
    · simp only [GoMap.set, h1, if_false, List.map_cons, List.mem_cons, ih]
      tauto

theorem GoMap.nodup_set (m : GoMap V) (k : String) (v : V)
    (h : (m.map Prod.fst).Nodup) : ((m.set k v).map Prod.fst).Nodup := by
  induction m with
  | nil => simp [GoMap.set]
  | cons p m ih =>
    obtain ⟨k1, v1⟩ := p
    simp only [List.map_cons, List.nodup_cons] at h
    by_cases h1 : k1 = k
    · subst h1
      simp only [GoMap.set, if_true, List.map_cons, List.nodup_cons]
      exact h
    · simp only [GoMap.set, h1, if_false, List.map_cons, List.nodup_cons]
      refine ⟨?_, ih h.2⟩
      rw [GoMap.keys_set]
      rintro (h2 | h2)
      · exact h1 h2
      · exact h.1 h2

theorem GoMap.get_of_mem {m : GoMap V} {k : String} {v : V}
    (hn : (m.map Prod.fst).Nodup) (h : (k, v) ∈ m) : m.get k = some v := by
  induction m with
  | nil => simp at h
  | cons p m ih =>
    obtain ⟨k1, v1⟩ := p
    simp only [List.map_cons, List.nodup_cons] at hn
    rcases List.mem_cons.1 h with h | h
    · simp only [Prod.mk.injEq] at h
      obtain ⟨rfl, rfl⟩ := h
      simp [GoMap.get]
    · have hne : k1 ≠ k := by
        rintro rfl
        exact hn.1 (List.mem_map.2 ⟨(k1, v), h, rfl⟩)
      simp [GoMap.get, hne, ih hn.2 h]

end Maps2

section AddrMaps

theorem presentAddresses_nodup (addrs : List Addr) :
    ∀ m : GoMap Addr, (m.map Prod.fst).Nodup →
      ((presentAddresses addrs m).map Prod.fst).Nodup := by
  induction addrs with
  | nil => intro m h; exact h
  | cons a addrs ih => intro m h; exact ih _ (GoMap.nodup_set m _ _ h)

theorem presentAddresses_get_sound (addrs : List Addr) :
    ∀ (m : GoMap Addr) (key : String) (ad : Addr),
      (presentAddresses addrs m).get key = some ad →
        (ad ∈ addrs ∧ ipNetString ad.IPNet = key) ∨ m.get key = some ad := by
  induction addrs with
  | nil => intro m key ad h; exact Or.inr h
  | cons a addrs ih =>
    intro m key ad h
    rcases ih _ key ad h with ⟨h1, h2⟩ | h1
    · exact Or.inl ⟨List.mem_cons_of_mem _ h1, h2⟩
    · rw [GoMap.get_set] at h1
      by_cases hk : ipNetString a.IPNet = key
      · simp only [hk, if_true, Option.some.injEq] at h1
        subst h1
        exact Or.inl ⟨List.mem_cons_self _ _, hk⟩
      · simp only [hk, if_false] at h1
        exact Or.inr h1

theorem presentAddresses_get_skip (addrs : List Addr) :
    ∀ (m : GoMap Addr) (key : String),
      key ∉ addrs.map (fun a => ipNetString a.IPNet) →
        (presentAddresses addrs m).get key = m.get key := by
  induction addrs with
  | nil => intro m key _; rfl
  | cons a addrs ih =>
    intro m key h
    simp only [List.map_cons, List.mem_cons, not_or] at h
    simp only [presentAddresses]
    rw [ih _ key h.2, GoMap.get_set]
    simp [Ne.symm h.1]

theorem presentAddresses_get_complete (addrs : List Addr) :
    ∀ (m : GoMap Addr) (ad : Addr), ad ∈ addrs →
      (addrs.map (fun a => ipNetString a.IPNet)).Nodup →
        (presentAddresses addrs m).get (ipNetString ad.IPNet) = some ad := by
  induction addrs with
  | nil => intro m ad h; simp at h
  | cons a addrs ih =>
    intro m ad h hn
    simp only [List.map_cons, List.nodup_cons] at hn
    simp only [presentAddresses]
    rcases List.mem_cons.1 h with rfl | h
    · rw [presentAddresses_get_skip addrs _ _ hn.1, GoMap.get_set]
      simp
    · exact ih _ ad h hn.2

theorem marked_nodup (ds : List IPNet) :
    ∀ m : GoMap Addr, (m.map Prod.fst).Nodup → ((marked ds m).map Prod.fst).Nodup := by
  induction ds with
  | nil => intro m h; exact h
  | cons d ds ih =>
    intro m h
    simp only [marked, List.foldl_cons]
    exact ih _ (GoMap.nodup_set m _ _ h)

theorem marked_get (ds : List IPNet) :
    ∀ (m : GoMap Addr) (key : String),
      (marked ds m).get key =
        if key ∈ ds.map (fun d => d.text) then some ⟨none, "", 0⟩ else m.get key := by
  induction ds with
  | nil => intro m key; simp [marked]
  | cons d ds ih =>
    intro m key
    have h := ih (GoMap.set m d.text ⟨none, "", 0⟩) key
    simp only [marked, List.foldl_cons] at h ⊢
    rw [h, GoMap.get_set]
    by_cases h1 : key ∈ ds.map (fun d => d.text)
    · simp [h1]
    · by_cases h2 : d.text = key
      · simp [h2]
      · simp [h1, h2, Ne.symm h2]

/-- The entries left unmarked are the listed addresses whose network string is
not configured. -/
theorem marked_unmarked_iff (ds : List IPNet) (addrs : List Addr) (key : String) (ad : Addr)
    (hn : ad.IPNet ≠ none) :
    (key, ad) ∈ marked ds (presentAddresses addrs []) ↔
      (key ∉ ds.map (fun d => d.text) ∧ (presentAddresses addrs []).get key = some ad) := by
  have hnd : ((presentAddresses addrs []).map Prod.fst).Nodup :=
    presentAddresses_nodup addrs [] (by simp)
  constructor
  · intro h
    have hg := GoMap.get_of_mem (marked_nodup ds _ hnd) h
    rw [marked_get] at hg
    by_cases h1 : key ∈ ds.map (fun d => d.text)
    · simp only [h1, if_true, Option.some.injEq] at hg
      subst hg
      exact absurd rfl hn
    · simp only [h1, if_false] at hg
      exact ⟨h1, hg⟩
  · rintro ⟨h1, h2⟩
    apply GoMap.mem_of_get
    rw [marked_get]
    simp [h1, h2]

end AddrMaps

section Planned

theorem plannedAdds_sound (cfg : Config) (link : Link) (ds : List IPNet) :
    ∀ (seen : List String) (c : Call), c ∈ plannedAdds cfg link ds seen →
      ∃ a ∈ ds, c = Call.AddrAdd link ⟨some a, cfg.AddressLabel, 0⟩ ∧ a.text ∉ seen := by
  induction ds with
  | nil => intro seen c h; simp [plannedAdds] at h
  | cons d ds ih =>
    intro seen c h
    simp only [plannedAdds] at h
    split at h
    · obtain ⟨a, ha, h1, h2⟩ := ih seen c h
      exact ⟨a, List.mem_cons_of_mem _ ha, h1, h2⟩
    · rename_i hd
      rcases List.mem_cons.1 h with h | h
      · exact ⟨d, List.mem_cons_self _ _, h, hd⟩
      · obtain ⟨a, ha, h1, h2⟩ := ih _ c h
        exact ⟨a, List.mem_cons_of_mem _ ha, h1, fun hm => h2 (List.mem_cons_of_mem _ hm)⟩

theorem plannedAdds_complete (cfg : Config) (link : Link) (ds : List IPNet) :
    ∀ (seen : List String) (a : IPNet), a ∈ ds → a.text ∉ seen →
      ∃ a2 ∈ ds, a2.text = a.text ∧
        Call.AddrAdd link ⟨some a2, cfg.AddressLabel, 0⟩ ∈ plannedAdds cfg link ds seen := by
  induction ds with
  | nil => intro seen a h; simp at h
  | cons d ds ih =>
    intro seen a h hs
    simp only [plannedAdds]
    by_cases hd : d.text ∈ seen
    · simp only [hd, if_true]
      rcases List.mem_cons.1 h with rfl | h
      · exact absurd hd hs
      · obtain ⟨a2, h1, h2, h3⟩ := ih seen a h hs
        exact ⟨a2, List.mem_cons_of_mem _ h1, h2, h3⟩
    · simp only [hd, if_false]
      by_cases hda : d.text = a.text
      · exact ⟨d, List.mem_cons_self _ _, hda, List.mem_cons_self _ _⟩
      · rcases List.mem_cons.1 h with rfl | h
        · exact absurd rfl hda
        · obtain ⟨a2, h1, h2, h3⟩ := ih (d.text :: seen) a h (by
            simp only [List.mem_cons, not_or]; exact ⟨Ne.symm hda, hs⟩)
          exact ⟨a2, List.mem_cons_of_mem _ h1, h2, List.mem_cons_of_mem _ h3⟩

theorem mem_plannedDels {link : Link} {entries : List (String × Addr)} {c : Call} :
    c ∈ plannedDels link entries ↔
      ∃ key ad, (key, ad) ∈ entries ∧ ad.IPNet ≠ none ∧ c = Call.AddrDel link ad := by
  simp only [plannedDels, List.mem_map, List.mem_filter, decide_eq_true_eq]
  constructor
  · rintro ⟨⟨key, ad⟩, ⟨h1, h2⟩, h3⟩
    exact ⟨key, ad, h1, h2, h3.symm⟩
  · rintro ⟨key, ad, h1, h2, h3⟩
    exact ⟨(key, ad), ⟨h1, h2⟩, h3.symm⟩

theorem fatal_of_ok (ev : Event) (h : ev.2 = none) : fatal ev = false := by
  obtain ⟨c, e⟩ := ev
  simp only at h
  subst h
  cases c <;> rfl

end Planned

section AddrExact

variable {σ : Type}

theorem fatal_false_add {l : Link} {a : Addr} {e : Option Err}
    (h : fatal (Call.AddrAdd l a, e) = false) : e = none ∨ e = some Err.EEXIST := by
  cases e with
  | none => exact Or.inl rfl
  | some e =>
    right
    simpa [fatal] using h

theorem fatal_false_del {l : Link} {a : Addr} {e : Option Err}
    (h : fatal (Call.AddrDel l a, e) = false) : e = none := by
  cases e with
  | none => rfl
  | some e => simp [fatal] at h

theorem fatal_false_list {l : Link} {f : Int} {e : Option Err}
    (h : fatal (Call.AddrList l f, e) = false) : e = none := by
  cases e with
  | none => rfl
  | some e => simp [fatal] at h

/-- Membership in the deletes planned from a listing: the listed addresses whose
network string is not configured. -/
theorem mem_plannedDels_listing (o : RangeOrder) (hfair : o.Fair) (cfg : Config) (link : Link)
    (addrs : List Addr) (c : Call)
    (h : c ∈ plannedDels link (o.addr (marked cfg.Address (presentAddresses addrs [])))) :
    ∃ ad ∈ addrs, ad.IPNet ≠ none ∧
      ipNetString ad.IPNet ∉ cfg.Address.map (fun d => d.text) ∧ c = Call.AddrDel link ad := by
  obtain ⟨key, ad, hent, hn, hc⟩ := mem_plannedDels.1 h
  have hent := (hfair.1 _).mem_iff.1 hent
  obtain ⟨h1, h2⟩ := (marked_unmarked_iff _ _ key ad hn).1 hent
  rcases presentAddresses_get_sound _ _ _ _ h2 with ⟨hl, hk⟩ | hnil
  · exact ⟨ad, hl, hn, by rw [hk]; exact h1, hc⟩
  · simp [GoMap.get] at hnil

theorem plannedDels_of_listing (o : RangeOrder) (hfair : o.Fair) (cfg : Config) (link : Link)
    (addrs : List Addr) (hkeys : (addrs.map (fun a => ipNetString a.IPNet)).Nodup)
    (ad : Addr) (had : ad ∈ addrs) (hn : ad.IPNet ≠ none)
    (hkey : ipNetString ad.IPNet ∉ cfg.Address.map (fun d => d.text)) :
    Call.AddrDel link ad ∈
      plannedDels link (o.addr (marked cfg.Address (presentAddresses addrs []))) := by
  apply mem_plannedDels.2
  refine ⟨ipNetString ad.IPNet, ad, ?_, hn, rfl⟩
  apply (hfair.1 _).mem_iff.2
  rw [marked_unmarked_iff _ _ _ _ hn]
  exact ⟨hkey, presentAddresses_get_complete _ [] _ had hkeys⟩

end AddrExact

/-- C1 as stated fails: on the kernel model, with A (primary) and B (its secondary)
bound to `wg0` and B and C configured, `SyncAddress` returns nil, each of its calls
succeeds (the listing, the add of C, the delete of A), and no address is bound
afterwards, B and C having gone with their primary: the bound set is not `cfg.Address`. -/
theorem SyncAddress_leaves_no_address :
    (∀ b ∈ sampleKernel.addrs, b.Index = wg0.Index → b.Net.v4 = true) ∧
    sampleKernel.boundKeys wg0 = ["10.0.0.1/24", "10.0.0.2/24"] ∧
    sampleCfg.Address.map (fun d => d.text) = ["10.0.0.2/24", "10.0.0.3/24"] ∧
    (SyncAddress kernelWorld RangeOrder.insertion sampleCfg wg0 sampleKernel).ret = none ∧
    (SyncAddress kernelWorld RangeOrder.insertion sampleCfg wg0 sampleKernel).log =
      [(Call.AddrList wg0 AF_INET, none),
       (Call.AddrAdd wg0 ⟨some netC, "wg0", 0⟩, none),
       (Call.AddrDel wg0 ⟨some netA, "wg0", 0⟩, none)] ∧
    (SyncAddress kernelWorld RangeOrder.insertion sampleCfg wg0 sampleKernel).st.boundKeys wg0
      = [] ∧
    ¬ (∀ key, key ∈ (SyncAddress kernelWorld RangeOrder.insertion sampleCfg wg0
        sampleKernel).st.boundKeys wg0 ↔ key ∈ sampleCfg.Address.map (fun d => d.text)) := by
  refine ⟨by decide, by decide, by decide, by decide, by decide, by decide, ?_⟩
  intro h
  have h1 := (h "10.0.0.2/24").2 (by decide)
  have h2 : (SyncAddress kernelWorld RangeOrder.insertion sampleCfg wg0
      sampleKernel).st.boundKeys wg0 = [] := by decide
  rw [h2] at h1
  cases h1

/-- C1, amended: for every world, when the IPv4 listing reports addresses with pairwise
distinct network strings and `SyncAddress` returns nil, then for every configured
network string the listing does not show an add of a configured address with that
string and label `cfg.AddressLabel` was issued and answered nil or `EEXIST`; for every
listed address whose string is not configured a delete was issued and answered nil; no
add and no delete was issued for a network string both listed and configured; and
every call issued is the listing, such an add or such a delete. -/
theorem SyncAddress_calls {σ : Type} (w : World σ) (o : RangeOrder) (hfair : o.Fair)
    (cfg : Config) (link : Link) (s : σ) (addrs : List Addr)
    (hlist : (w.AddrList link AF_INET s).1 = .ok addrs)
    (hkeys : (addrs.map (fun a => ipNetString a.IPNet)).Nodup)
    (hret : (SyncAddress w o cfg link s).ret = none) :
    (∀ a ∈ cfg.Address, a.text ∉ addrs.map (fun a => ipNetString a.IPNet) →
      ∃ a2 ∈ cfg.Address, a2.text = a.text ∧
        ((Call.AddrAdd link ⟨some a2, cfg.AddressLabel, 0⟩, none) ∈
            (SyncAddress w o cfg link s).log ∨
          (Call.AddrAdd link ⟨some a2, cfg.AddressLabel, 0⟩, some Err.EEXIST) ∈
            (SyncAddress w o cfg link s).log)) ∧
    (∀ ad ∈ addrs, ad.IPNet ≠ none →
      ipNetString ad.IPNet ∉ cfg.Address.map (fun d => d.text) →
      (Call.AddrDel link ad, none) ∈ (SyncAddress w o cfg link s).log) ∧
    (∀ ad e, ipNetString ad.IPNet ∈ addrs.map (fun a => ipNetString a.IPNet) →
      ipNetString ad.IPNet ∈ cfg.Address.map (fun d => d.text) →
      (Call.AddrAdd link ad, e) ∉ (SyncAddress w o cfg link s).log ∧
      (Call.AddrDel link ad, e) ∉ (SyncAddress w o cfg link s).log) ∧
    (∀ ev ∈ (SyncAddress w o cfg link s).log,
      ev = (Call.AddrList link AF_INET, none) ∨
      (∃ a ∈ cfg.Address, a.text ∉ addrs.map (fun a => ipNetString a.IPNet) ∧
        ev.1 = Call.AddrAdd link ⟨some a, cfg.AddressLabel, 0⟩ ∧
        (ev.2 = none ∨ ev.2 = some Err.EEXIST)) ∨
      (∃ ad ∈ addrs, ipNetString ad.IPNet ∉ cfg.Address.map (fun d => d.text) ∧
        ev = (Call.AddrDel link ad, none))) := by
  have hfol := SyncAddress_follows w o cfg link s addrs hlist
  obtain ⟨hcalls, hnofatal⟩ := hfol.1 hret
  have hissued : ∀ c, c ∈ plannedCalls o cfg link addrs →
      ∃ e, (c, e) ∈ (SyncAddress w o cfg link s).log := by
    intro c hc
    rw [← hcalls] at hc
    obtain ⟨ev, hev, rfl⟩ := List.mem_map.1 hc
    exact ⟨ev.2, hev⟩
  have hplanned : ∀ c e, (c, e) ∈ (SyncAddress w o cfg link s).log →
      c ∈ plannedCalls o cfg link addrs := by
    intro c e hc
    rw [← hcalls]
    exact List.mem_map.2 ⟨(c, e), hc, rfl⟩
  have hsplit : ∀ c, c ∈ plannedCalls o cfg link addrs →
      c = Call.AddrList link AF_INET ∨
      c ∈ plannedAdds cfg link cfg.Address (addrs.map (fun a => ipNetString a.IPNet)) ∨
      c ∈ plannedDels link (o.addr (marked cfg.Address (presentAddresses addrs []))) := by
    intro c hc
    unfold plannedCalls at hc
    simpa [List.mem_cons, List.mem_append] using hc
  refine ⟨?_, ?_, ?_, ?_⟩
  · intro a ha hseen
    obtain ⟨a2, ha2, htext, hpl⟩ := plannedAdds_complete cfg link cfg.Address _ a ha hseen
    obtain ⟨e, hev⟩ := hissued _ (by
      unfold plannedCalls
      exact List.mem_cons_of_mem _ (List.mem_append_left _ hpl))
    refine ⟨a2, ha2, htext, ?_⟩
    rcases fatal_false_add (hnofatal _ hev) with h | h
    · subst h; exact Or.inl hev
    · subst h; exact Or.inr hev
  · intro ad had hn hkey
    obtain ⟨e, hev⟩ := hissued _ (by
      unfold plannedCalls
      exact List.mem_cons_of_mem _ (List.mem_append_right _
        (plannedDels_of_listing o hfair cfg link addrs hkeys ad had hn hkey)))
    have := fatal_false_del (hnofatal _ hev)
    subst this
    exact hev
  · intro ad e hlisted hconf
    constructor
    · intro hin
      rcases hsplit _ (hplanned _ _ hin) with h | h | h
      · cases h
      · obtain ⟨a, _, h1, h2⟩ := plannedAdds_sound cfg link cfg.Address _ _ h
        simp only [Call.AddrAdd.injEq, true_and] at h1
        subst h1
        exact h2 hlisted
      · obtain ⟨_, _, _, _, h1⟩ := mem_plannedDels_listing o hfair cfg link addrs _ h
        cases h1
    · intro hin
      rcases hsplit _ (hplanned _ _ hin) with h | h | h
      · cases h
      · obtain ⟨a, _, h1, _⟩ := plannedAdds_sound cfg link cfg.Address _ _ h
        cases h1
      · obtain ⟨ad2, _, _, h3, h1⟩ := mem_plannedDels_listing o hfair cfg link addrs _ h
        simp only [Call.AddrDel.injEq, true_and] at h1
        subst h1
        exact h3 hconf
  · intro ev hev
    obtain ⟨c, e⟩ := ev
    rcases hsplit _ (hplanned _ _ hev) with h | h | h
    · subst h
      have := fatal_false_list (hnofatal _ hev)
      subst this
      exact Or.inl rfl
    · obtain ⟨a, ha, h1, h2⟩ := plannedAdds_sound cfg link cfg.Address _ _ h
      subst h1
      exact Or.inr (Or.inl ⟨a, ha, h2, rfl, fatal_false_add (hnofatal _ hev)⟩)
    · obtain ⟨ad, had, _, h3, h1⟩ := mem_plannedDels_listing o hfair cfg link addrs _ h
      subst h1
      have := fatal_false_del (hnofatal _ hev)
      subst this
      exact Or.inr (Or.inr ⟨ad, had, h3, rfl⟩)

theorem SyncAddress_calls_witness :
    RangeOrder.insertion.Fair ∧
    (kernelWorld.AddrList wg0 AF_INET sampleKernel).1 =
      .ok [⟨some netA, "wg0", 0⟩, ⟨some netB, "wg0", 0⟩] ∧
    (([⟨some netA, "wg0", 0⟩, ⟨some netB, "wg0", 0⟩] : List Addr).map
      (fun a => ipNetString a.IPNet)).Nodup ∧
    (SyncAddress kernelWorld RangeOrder.insertion sampleCfg wg0 sampleKernel).ret = none ∧
    (Call.AddrDel wg0 ⟨some netA, "wg0", 0⟩, none) ∈
      (SyncAddress kernelWorld RangeOrder.insertion sampleCfg wg0 sampleKernel).log ∧
    (Call.AddrAdd wg0 ⟨some netB, "wg0", 0⟩, none) ∉
      (SyncAddress kernelWorld RangeOrder.insertion sampleCfg wg0 sampleKernel).log :=
  ⟨insertion_fair, rfl, by decide, by decide,
    (SyncAddress_calls kernelWorld RangeOrder.insertion insertion_fair sampleCfg wg0 sampleKernel
      [⟨some netA, "wg0", 0⟩, ⟨some netB, "wg0", 0⟩] rfl (by decide) (by decide)).2.1
      ⟨some netA, "wg0", 0⟩ (by decide) (by decide) (by decide),
    ((SyncAddress_calls kernelWorld RangeOrder.insertion insertion_fair sampleCfg wg0 sampleKernel
      [⟨some netA, "wg0", 0⟩, ⟨some netB, "wg0", 0⟩] rfl (by decide) (by decide)).2.2.1
      ⟨some netB, "wg0", 0⟩ none (by decide) (by decide)).1⟩

/-! ## What a repeated `Sync` issues -/

section Again

variable {σ : Type}

theorem SyncLink_found (w : World σ) (cfg : Config) (iface : String) (s : σ) (link : Link)
    (h : (w.LinkByName iface s).1 = .ok link) :
    (SyncLink w cfg iface s).log =
      [(Call.LinkByName iface, none),
       (Call.LinkSetUp link, (call w (Call.LinkSetUp link) (w.LinkByName iface s).2).ret)] ∧
    (SyncLink w cfg iface s).st = (call w (Call.LinkSetUp link) (w.LinkByName iface s).2).st ∧
    (∀ link2, (SyncLink w cfg iface s).ret = .ok link2 →
      link2 = link ∧ (call w (Call.LinkSetUp link) (w.LinkByName iface s).2).ret = none) := by
  unfold SyncLink
  simp only [linkByName, h, errOf]
  cases hu : (call w (Call.LinkSetUp link) (w.LinkByName iface s).2).ret with
  | none => simp [hu]
  | some e => simp [hu]

theorem SyncLink_ok_setUp (w : World σ) (cfg : Config) (iface : String) (s : σ) (link : Link)
    (h : (SyncLink w cfg iface s).ret = .ok link) :
    (Call.LinkSetUp link, none) ∈ (SyncLink w cfg iface s).log := by
  cases h1 : (w.LinkByName iface s).1 with
  | ok link0 =>
    obtain ⟨hlog, _, hret⟩ := SyncLink_found w cfg iface s link0 h1
    obtain ⟨rfl, hu⟩ := hret link h
    rw [hlog, hu]
    simp
  | error e =>
    by_cases he : e = Err.LinkNotFound
    · subst he
      cases hadd : (call w (Call.LinkAdd iface cfg.MTU "wireguard") (w.LinkByName iface s).2).ret with
      | some e2 => simp [SyncLink, linkByName, h1, hadd] at h
      | none =>
        cases h2 : (w.LinkByName iface
            (call w (Call.LinkAdd iface cfg.MTU "wireguard") (w.LinkByName iface s).2).st).1 with
        | error e3 => simp [SyncLink, linkByName, h1, hadd, h2] at h
        | ok link2 =>
          cases hu : (call w (Call.LinkSetUp link2) (w.LinkByName iface
              (call w (Call.LinkAdd iface cfg.MTU "wireguard") (w.LinkByName iface s).2).st).2).ret with
          | some e4 => simp [SyncLink, linkByName, h1, hadd, h2, hu] at h
          | none =>
            simp only [SyncLink, linkByName, h1, hadd, h2, hu, ne_eq, not_true_eq_false,
              if_false, Except.ok.injEq] at h ⊢
            subst h
            simp [hu]
    · simp [SyncLink, linkByName, h1, he] at h

theorem SyncWireguardDevice_done (w : World σ) (cfg : Config) (link : Link) (s : σ)
    (h : (SyncWireguardDevice w cfg link s).ret = none) :
    (SyncWireguardDevice w cfg link s).log =
      [(Call.WgNew, none), (Call.ConfigureDevice link.Name cfg.Device, none)] := by
  unfold SyncWireguardDevice at h ⊢
  obtain ⟨h1, h2⟩ := andThen_ret_none.1 h
  rw [andThen_none h1]
  simp only [call_log, h1, h2, List.singleton_append]

theorem SyncRoutes_done (w : World σ) (o : RangeOrder) (hfair : o.Fair) (cfg : Config)
    (link : Link) (managed : List IPNet) (s : σ)
    (hret : (SyncRoutes w o cfg link managed s).ret = none) :
    ∀ d ∈ managed, (Call.RouteReplace (stampedRoute cfg link d), none) ∈
      (SyncRoutes w o cfg link managed s).log := by
  intro d hd
  cases h : (w.RouteList link AF_INET s).1 with
  | error e =>
    rw [SyncRoutes_error w o cfg link managed s e h] at hret
    simp at hret
  | ok present =>
    rw [SyncRoutes_ok w o cfg link managed s present h] at hret ⊢
    simp only [logged_ret] at hret
    obtain ⟨h1, _⟩ := andThen_ret_none.1 hret
    rw [andThen_none h1]
    simp only [logged_log, List.singleton_append, List.mem_cons, List.mem_append]
    right; left
    obtain ⟨l, hl, hmem⟩ := wantedRoutes_complete cfg link managed [] d hd
    exact SyncRoutesUpsert_done w _ _ h1 d.text l _
      ((hfair.2 _).mem_iff.2 (GoMap.mem_of_get hl)) hmem

theorem SyncRoutesReplace_calls (w : World σ) (l : List Route) :
    ∀ s : σ, (SyncRoutesReplace w l s).ret = none →
      (SyncRoutesReplace w l s).log = (l.map Call.RouteReplace).map (fun c => (c, none)) := by
  induction l with
  | nil => intro s _; rfl
  | cons rt l ih =>
    intro s h
    simp only [SyncRoutesReplace] at h ⊢
    obtain ⟨h1, h2⟩ := andThen_ret_none.1 h
    rw [andThen_none h1]
    simp only [call_log, h1, ih _ h2, List.map_cons, List.singleton_append]

theorem SyncRoutesUpsert_calls (w : World σ) (entries : List (String × List Route)) :
    ∀ s : σ, (SyncRoutesUpsert w entries s).ret = none →
      (SyncRoutesUpsert w entries s).log =
        (plannedReplaces entries).map (fun c => (c, none)) := by
  induction entries with
  | nil => intro s _; rfl
  | cons p entries ih =>
    obtain ⟨key, l⟩ := p
    intro s h
    simp only [SyncRoutesUpsert] at h ⊢
    obtain ⟨h1, h2⟩ := andThen_ret_none.1 h
    rw [andThen_none h1]
    simp only [SyncRoutesReplace_calls w l s h1, ih _ h2, plannedReplaces, List.map_append]

theorem SyncRoutesScan_skip (w : World σ) (cfg : Config)
    (wanted : GoMap (List Route)) (rt : Route) (rest : List Route) (s : σ)
    (h : ¬ stale cfg wanted rt) :
    SyncRoutesScan w cfg wanted (rt :: rest) s = SyncRoutesScan w cfg wanted rest s := by
  simp only [SyncRoutesScan]
  split
  · rfl
  · rename_i ht
    split
    · rfl
    · rename_i hp
      split
      · rfl
      · rename_i hw
        exact absurd ⟨not_not.1 ht, not_not.1 hp, by simpa using hw⟩ h

theorem SyncRoutesScan_clean (w : World σ) (cfg : Config)
    (wanted : GoMap (List Route)) (present : List Route) (s : σ)
    (h : ∀ rt ∈ present, ¬ stale cfg wanted rt) :
    SyncRoutesScan w cfg wanted present s = ⟨none, s, []⟩ := by
  induction present with
  | nil => rfl
  | cons rt present ih =>
    rw [SyncRoutesScan_skip w cfg wanted rt present s (h rt (List.mem_cons_self _ _))]
    exact ih (fun r hr => h r (List.mem_cons_of_mem _ hr))

/-- With no listed route stale, a `SyncRoutes` that returns nil has issued the
listing and the upserts of the wanted map, each answered nil. -/
theorem SyncRoutes_clean (w : World σ) (o : RangeOrder) (cfg : Config) (link : Link)
    (managed : List IPNet) (s : σ) (present : List Route)
    (hlist : (w.RouteList link AF_INET s).1 = .ok present)
    (hclean : ∀ rt ∈ present, ¬ stale cfg (wantedRoutes cfg link managed []) rt)
    (hret : (SyncRoutes w o cfg link managed s).ret = none) :
    (SyncRoutes w o cfg link managed s).log =
      ((Call.RouteList link AF_INET ::
        plannedReplaces (o.route (wantedRoutes cfg link managed []))).map (fun c => (c, none))) := by
  rw [SyncRoutes_ok w o cfg link managed s present hlist] at hret ⊢
  simp only [logged_ret] at hret
  obtain ⟨h1, _⟩ := andThen_ret_none.1 hret
  rw [andThen_none h1, SyncRoutesScan_clean w cfg _ _ _ hclean]
  simp only [logged_log, List.append_nil, SyncRoutesUpsert_calls w _ _ h1, List.map_cons,
    List.singleton_append]

/-- With no listed address left to delete, a `SyncAddress` that returns nil has
issued the listing and the planned adds, each add answered nil or `EEXIST`. -/
theorem SyncAddress_clean (w : World σ) (o : RangeOrder) (hfair : o.Fair) (cfg : Config)
    (link : Link) (s : σ) (addrs : List Addr)
    (hlist : (w.AddrList link AF_INET s).1 = .ok addrs)
    (hclean : ∀ ad ∈ addrs, ad.IPNet = none ∨
      ipNetString ad.IPNet ∈ cfg.Address.map (fun d => d.text))
    (hret : (SyncAddress w o cfg link s).ret = none) :
    (SyncAddress w o cfg link s).log.map Prod.fst =
      Call.AddrList link AF_INET ::
        plannedAdds cfg link cfg.Address (addrs.map (fun a => ipNetString a.IPNet)) ∧
    ∀ ev ∈ (SyncAddress w o cfg link s).log,
      ev.2 = none ∨ (ev.2 = some Err.EEXIST ∧ ∃ l a, ev.1 = Call.AddrAdd l a) := by
  have hfol := SyncAddress_follows w o cfg link s addrs hlist
  obtain ⟨hcalls, hnofatal⟩ := hfol.1 hret
  have hnil : plannedDels link (o.addr (marked cfg.Address (presentAddresses addrs []))) = [] := by
    apply List.eq_nil_iff_forall_not_mem.2
    intro c hc
    obtain ⟨ad, had, hn, hkey, _⟩ := mem_plannedDels_listing o hfair cfg link addrs c hc
    rcases hclean ad had with h | h
    · exact hn h
    · exact hkey h
  have hplan : plannedCalls o cfg link addrs = Call.AddrList link AF_INET ::
      plannedAdds cfg link cfg.Address (addrs.map (fun a => ipNetString a.IPNet)) := by
    unfold plannedCalls
    rw [hnil, List.append_nil]
  refine ⟨by rw [hcalls, hplan], ?_⟩
  intro ev hev
  have hc : ev.1 ∈ plannedCalls o cfg link addrs := by
    rw [← hcalls]; exact List.mem_map.2 ⟨ev, hev, rfl⟩
  rw [hplan] at hc
  obtain ⟨c, e⟩ := ev
  rcases List.mem_cons.1 hc with hc | hc
  · simp only at hc
    subst hc
    exact Or.inl (fatal_false_list (hnofatal _ hev))
  · obtain ⟨a, _, h1, _⟩ := plannedAdds_sound cfg link cfg.Address _ _ hc
    simp only at h1
    subst h1
    rcases fatal_false_add (hnofatal _ hev) with h | h
    · exact Or.inl h
    · exact Or.inr ⟨h, _, _, rfl⟩

theorem Sync_run (w : World σ) (o : RangeOrder) (cfg : Config) (iface : String)
    (s : σ) (link : Link) (hL : (SyncLink w cfg iface s).ret = .ok link)
    (hD : (SyncWireguardDevice w cfg link (SyncLink w cfg iface s).st).ret = none)
    (hA : (SyncAddress w o cfg link
      (SyncWireguardDevice w cfg link (SyncLink w cfg iface s).st).st).ret = none) :
    Sync w o cfg iface s =
      ⟨(SyncRoutes w o cfg link (managedRoutes cfg) (SyncAddress w o cfg link
          (SyncWireguardDevice w cfg link (SyncLink w cfg iface s).st).st).st).ret,
        (SyncRoutes w o cfg link (managedRoutes cfg) (SyncAddress w o cfg link
          (SyncWireguardDevice w cfg link (SyncLink w cfg iface s).st).st).st).st,
        (SyncLink w cfg iface s).log ++
          ((SyncWireguardDevice w cfg link (SyncLink w cfg iface s).st).log ++
            ((SyncAddress w o cfg link
                (SyncWireguardDevice w cfg link (SyncLink w cfg iface s).st).st).log ++
              (SyncRoutes w o cfg link (managedRoutes cfg) (SyncAddress w o cfg link
                (SyncWireguardDevice w cfg link (SyncLink w cfg iface s).st).st).st).log))⟩ := by
  rw [Sync_ok w o cfg iface s link hL, andThen_none hD]
  simp only [Out.logged]
  rw [andThen_none hA]

theorem Sync_first (w : World σ) (o : RangeOrder) (cfg : Config) (iface : String)
    (s : σ) (h : (Sync w o cfg iface s).ret = none) :
    ∃ link, (SyncLink w cfg iface s).ret = .ok link ∧
      (SyncWireguardDevice w cfg link (SyncLink w cfg iface s).st).ret = none ∧
      (SyncAddress w o cfg link
        (SyncWireguardDevice w cfg link (SyncLink w cfg iface s).st).st).ret = none ∧
      (SyncRoutes w o cfg link (managedRoutes cfg) (SyncAddress w o cfg link
        (SyncWireguardDevice w cfg link (SyncLink w cfg iface s).st).st).st).ret = none := by
  cases hL : (SyncLink w cfg iface s).ret with
  | error e =>
    rw [Sync_error w o cfg iface s e hL] at h
    cases h
  | ok link =>
    rw [Sync_ok w o cfg iface s link hL] at h
    simp only [logged_ret] at h
    obtain ⟨hD, h⟩ := andThen_ret_none.1 h
    obtain ⟨hA, hR⟩ := andThen_ret_none.1 h
    exact ⟨link, rfl, hD, hA, hR⟩

end Again

/-- C4 as stated fails: on a kernel where `wg0` is up and carries exactly the configured
addresses, the first `Sync` succeeds, and the second `Sync` with the same configuration
issues four mutating calls again: the link set-up, the device configuration, the add of
the configured IPv6 address (answered `EEXIST`) and the route replace.  With an own
protocol tag and a negative metric, which netlink does not send, the second `Sync` moreover
deletes the route that both runs upsert, listed back with metric 0. -/
theorem second_Sync_reissues_calls :
    (Sync kernelWorld RangeOrder.insertion dualCfg "wg0" tidyKernel).ret = none ∧
    (Sync kernelWorld RangeOrder.insertion dualCfg "wg0"
      (Sync kernelWorld RangeOrder.insertion dualCfg "wg0" tidyKernel).st).ret = none ∧
    (Sync kernelWorld RangeOrder.insertion dualCfg "wg0"
      (Sync kernelWorld RangeOrder.insertion dualCfg "wg0" tidyKernel).st).log.filter
        (fun ev => ev.1.isMutation) =
      [(Call.LinkSetUp wg0, none),
       (Call.ConfigureDevice "wg0" dualCfg.Device, none),
       (Call.AddrAdd wg0 ⟨some net6, "wg0", 0⟩, some Err.EEXIST),
       (Call.RouteReplace ⟨7, some net10, 254, 3, 0, 1, 0⟩, none)] ∧
    ¬ (∀ ev ∈ (Sync kernelWorld RangeOrder.insertion dualCfg "wg0"
        (Sync kernelWorld RangeOrder.insertion dualCfg "wg0" tidyKernel).st).log,
      ev.1.isMutation = false) ∧
    (Sync kernelWorld RangeOrder.insertion taggedCfg "wg0" bareKernel).ret = none ∧
    (Sync kernelWorld RangeOrder.insertion taggedCfg "wg0"
      (Sync kernelWorld RangeOrder.insertion taggedCfg "wg0" bareKernel).st).log.filter
        (fun ev => ev.1.isMutation) =
      [(Call.LinkSetUp wg0, none),
       (Call.ConfigureDevice "wg0" taggedCfg.Device, none),
       (Call.RouteReplace ⟨7, some net10, 254, 186, -5, 1, 0⟩, none),
       (Call.RouteDel ⟨7, some net10, 254, 186, 0, 1, 0⟩, none)] := by
  decide

/-- C4, amended: for every world and state, a `Sync` that returns nil has issued the link
set-up, the device configuration and, for every managed network, the replace of its
stamped route, each answered nil.  And when the lookup finds the link, the IPv4 address
listing shows no address whose network string is not configured, and the route listing
shows no route of the configured table and protocol tag that differs from every wanted
route, a `Sync` that returns nil has issued exactly: the lookup, the link set-up, the
wgctrl open, the device configuration, the address listing, an add for each configured
network string the listing does not show, the route listing and the replace of every
wanted route; each call was answered nil, but for adds answered `EEXIST`.  So such a
call creates no link, deletes no address and deletes no route. -/
theorem Sync_again {σ : Type} (w : World σ) (o : RangeOrder) (hfair : o.Fair) (cfg : Config)
    (iface : String) (s : σ) :
    ((Sync w o cfg iface s).ret = none →
      ∃ link, (Call.LinkSetUp link, none) ∈ (Sync w o cfg iface s).log ∧
        (Call.ConfigureDevice link.Name cfg.Device, none) ∈ (Sync w o cfg iface s).log ∧
        ∀ d ∈ managedRoutes cfg,
          (Call.RouteReplace (stampedRoute cfg link d), none) ∈ (Sync w o cfg iface s).log) ∧
    (∀ (link : Link) (addrs : List Addr) (present : List Route),
      (w.LinkByName iface s).1 = .ok link →
      (w.AddrList link AF_INET
        (SyncWireguardDevice w cfg link (SyncLink w cfg iface s).st).st).1 = .ok addrs →
      (∀ ad ∈ addrs, ad.IPNet = none ∨
        ipNetString ad.IPNet ∈ cfg.Address.map (fun d => d.text)) →
      (w.RouteList link AF_INET (SyncAddress w o cfg link
        (SyncWireguardDevice w cfg link (SyncLink w cfg iface s).st).st).st).1 = .ok present →
      (∀ rt ∈ present, ¬ stale cfg (wantedRoutes cfg link (managedRoutes cfg) []) rt) →
      (Sync w o cfg iface s).ret = none →
      (Sync w o cfg iface s).log.map Prod.fst =
        [Call.LinkByName iface, Call.LinkSetUp link, Call.WgNew,
          Call.ConfigureDevice link.Name cfg.Device, Call.AddrList link AF_INET] ++
          (plannedAdds cfg link cfg.Address (addrs.map (fun a => ipNetString a.IPNet)) ++
            (Call.RouteList link AF_INET ::
              plannedReplaces (o.route (wantedRoutes cfg link (managedRoutes cfg) [])))) ∧
      ∀ ev ∈ (Sync w o cfg iface s).log,
        ev.2 = none ∨ (ev.2 = some Err.EEXIST ∧ ∃ l a, ev.1 = Call.AddrAdd l a)) := by
  constructor
  · intro hret
    obtain ⟨link, hL, hD, hA, hR⟩ := Sync_first w o cfg iface s hret
    rw [Sync_run w o cfg iface s link hL hD hA]
    refine ⟨link, ?_, ?_, ?_⟩
    · exact List.mem_append_left _ (SyncLink_ok_setUp w cfg iface s link hL)
    · refine List.mem_append_right _ (List.mem_append_left _ ?_)
      rw [SyncWireguardDevice_done w cfg link _ hD]
      simp
    · intro d hd
      exact List.mem_append_right _ (List.mem_append_right _ (List.mem_append_right _
        (SyncRoutes_done w o hfair cfg link (managedRoutes cfg) _ hR d hd)))
  · intro link addrs present hlk hal hac hrl hrc hret
    obtain ⟨link2, hL, hD, hA, hR⟩ := Sync_first w o cfg iface s hret
    obtain ⟨hLlog, _, hLret⟩ := SyncLink_found w cfg iface s link hlk
    obtain ⟨rfl, hu⟩ := hLret link2 hL
    rw [hu] at hLlog
    have hDlog := SyncWireguardDevice_done w cfg link2 _ hD
    obtain ⟨hAcalls, hAres⟩ := SyncAddress_clean w o hfair cfg link2 _ addrs hal hac hA
    have hRlog := SyncRoutes_clean w o cfg link2 (managedRoutes cfg) _ present hrl hrc hR
    rw [Sync_run w o cfg iface s link2 hL hD hA]
    constructor
    · simp only [List.map_append, hAcalls]
      rw [hLlog, hDlog, hRlog]
      have hid : ∀ l : List Call, (l.map (fun c => ((c, none) : Event))).map Prod.fst = l := by
        intro l
        induction l with
        | nil => rfl
        | cons c l ih => simp only [List.map_cons, ih]
      simp only [hid, List.map_cons, List.map_nil, List.cons_append, List.nil_append]
    · intro ev hev
      simp only [List.mem_append] at hev
      rcases hev with hev | hev | hev | hev
      · rw [hLlog] at hev
        simp only [List.mem_cons, List.mem_singleton, List.not_mem_nil, or_false] at hev
        rcases hev with hev | hev <;> (rw [hev]; exact Or.inl rfl)
      · rw [hDlog] at hev
        simp only [List.mem_cons, List.mem_singleton, List.not_mem_nil, or_false] at hev
        rcases hev with hev | hev <;> (rw [hev]; exact Or.inl rfl)
      · exact hAres ev hev
      · rw [hRlog] at hev
        obtain ⟨c, _, rfl⟩ := List.mem_map.1 hev
        exact Or.inl rfl

theorem Sync_again_witness :
    RangeOrder.insertion.Fair ∧
    (Sync kernelWorld RangeOrder.insertion dualCfg "wg0" tidyKernel).ret = none ∧
    (Sync kernelWorld RangeOrder.insertion dualCfg "wg0"
      (Sync kernelWorld RangeOrder.insertion dualCfg "wg0" tidyKernel).st).log.map Prod.fst =
        [Call.LinkByName "wg0", Call.LinkSetUp wg0, Call.WgNew,
          Call.ConfigureDevice "wg0" dualCfg.Device, Call.AddrList wg0 AF_INET] ++
          (plannedAdds dualCfg wg0 dualCfg.Address ["10.0.0.2/24"] ++
            (Call.RouteList wg0 AF_INET ::
              plannedReplaces (wantedRoutes dualCfg wg0 (managedRoutes dualCfg) []))) :=
  ⟨insertion_fair, by decide,
    ((Sync_again kernelWorld RangeOrder.insertion insertion_fair dualCfg "wg0"
      (Sync kernelWorld RangeOrder.insertion dualCfg "wg0" tidyKernel).st).2
      wg0 [⟨some netB, "wg0", 0⟩]
      [⟨7, some net10, 254, 3, 0, 1, 0⟩, ⟨7, some net192, 254, 3, 0, 1, 0⟩]
      rfl rfl (by decide) rfl (by decide) (by decide)).1⟩

end WgQuick
